import Mathlib

/-!
# FlowBoard — verification of the collaborative board coordinator

Shallow embedding of the server core of the FlowBoard Kanban application:

* `lib/fractionalIndex.ts`   — fractional ordering keys (`orderBetween`,
  `needsRebalance`, `rebalancedOrders`);
* `services/taskService.ts`  — task CRUD over the authoritative Redis cache
  (`cacheTask`, `getTask`, `getAllTasks`, `createTask`, `updateTask`,
  `moveTask`, `deleteTask`);
* `services/conflictService.ts` — per-task advisory move lock
  (`acquireMoveLock`, `releaseMoveLock`);
* `jobs/dbFlushWorker.ts`    — debounced write-behind flush queue
  (`enqueueDatabaseFlush`, `handleUpsert`, `handleDelete`, `handleRebalance`);
* `ws/handlers/task.handler.ts` — the `TASK_MOVE` handler used by two
  concurrent movers (`handleTaskMove`).

Modelling conventions:
* JS `number` is modelled as `ℚ` (the claims under study are about exact
  midpoints and thresholds, not float rounding); JS integer counters as `ℕ`.
* ISO timestamp strings are threaded as an explicit `now : String` argument
  in place of `new Date().toISOString()`.
* Redis sets are modelled as duplicate-free `List String` with `SADD`
  appending and `SREM` filtering; the task hash `task:{id}` is modelled as a
  `String → Option Task` map (the flat string serialisation round-trip of
  `taskToHash`/`hashToTask` is identity on the fields the claims mention and
  is not modelled).  Key TTLs are not modelled.
* The Supabase `tasks` table is a `List Task` of rows (primary key `id`).
* `async`/`await` sequencing is explicit state passing; each service call is
  atomic, matching the per-claim granularity of the spec.
-/

namespace FlowBoard

/-- `ColumnId` enumeration from `services/taskService.ts`:
`'todo' | 'in-progress' | 'done'`. -/
inductive ColumnId : Type where
  | todo : ColumnId
  | inProgress : ColumnId
  | done : ColumnId
deriving DecidableEq

/-- The `Task` interface from `services/taskService.ts`. -/
structure Task : Type where
  id : String
  columnId : ColumnId
  title : String
  description : String
  order : ℚ
  createdAt : String
  updatedAt : String
  version : ℕ
  creatorName : Option String
  creatorColor : Option String
  updatedByName : Option String
  updatedByColor : Option String
deriving DecidableEq

/-- `ServiceOutcome<T>` from `services/taskService.ts`: either
`{ok: true, data}` or `{ok: false, code, message}`. -/
inductive ServiceOutcome (α : Type) : Type where
  | ok (data : α) : ServiceOutcome α
  | err (code : String) (message : String) : ServiceOutcome α
deriving DecidableEq

/-- `CreateTaskPayload` — fields read by `taskService.createTask`
(`validation/taskSchema.ts` plus the `updatedBy*` reads in the service). -/
structure CreateTaskPayload : Type where
  id : String
  columnId : ColumnId
  title : String
  description : Option String
  creatorName : Option String
  creatorColor : Option String
  updatedByName : Option String
  updatedByColor : Option String
deriving DecidableEq

/-- `UpdateTaskPayload` — fields read by `taskService.updateTask`.
The zod schema `UpdateTaskPayloadSchema` contains only
`{id, title?, description?, version}`; a schema-validated payload therefore
has `updatedByName = updatedByColor = none`. -/
structure UpdateTaskPayload : Type where
  id : String
  title : Option String
  description : Option String
  version : ℕ
  updatedByName : Option String
  updatedByColor : Option String
deriving DecidableEq

/-- `MoveTaskPayload` — fields read by `taskService.moveTask`.  The zod
schema `MoveTaskPayloadSchema` contains only `{id, columnId, order, version}`. -/
structure MoveTaskPayload : Type where
  id : String
  columnId : ColumnId
  order : ℚ
  version : ℕ
  updatedByName : Option String
  updatedByColor : Option String
deriving DecidableEq

/-- `DeleteTaskPayload` from `validation/taskSchema.ts`. -/
structure DeleteTaskPayload : Type where
  id : String
deriving DecidableEq

/-- JS `x || y` on an optional string: empty strings are falsy. -/
def jsOrString (o : Option String) (d : String) : String :=
  match o with
  | some s => if s = "" then d else s
  | none => d

/-! ## lib/fractionalIndex.ts -/

/-- `REBALANCE_THRESHOLD = 1e-9` from `lib/fractionalIndex.ts`. -/
def REBALANCE_THRESHOLD : ℚ := 1 / 1000000000

/-- `orderBetween(prev, next)` from `lib/fractionalIndex.ts`:
`lo = prev ?? 0`, `hi = next ?? lo + 1`; throws a `RangeError`
(the spec's `InvalidRange`) when `lo >= hi`, else returns `(lo + hi) / 2`. -/
def orderBetween (prev next : Option ℚ) : Except String ℚ :=
  let lo := prev.getD 0
  let hi := next.getD (lo + 1)
  if lo ≥ hi then Except.error "InvalidRange"
  else Except.ok ((lo + hi) / 2)

/-- `needsRebalance(prev, next)` from `lib/fractionalIndex.ts`:
true when `|next − prev| < 1e-9`. -/
def needsRebalance (prev next : ℚ) : Bool :=
  |next - prev| < REBALANCE_THRESHOLD

/-- `rebalancedOrders(count)` from `lib/fractionalIndex.ts`:
`(i + 1) * 1000` for `i < count`. -/
def rebalancedOrders (count : ℕ) : List ℚ :=
  (List.range count).map (fun i => ((i : ℚ) + 1) * 1000)

/-! ## Claim C8 — `orderBetween` error behaviour

The claim: `between(prev, next)` fails with `InvalidRange` exactly when both
sides are bounded and `prev ≥ next`; whenever at least one side is unbounded
it succeeds, returning `(low+high)/2` with `low = prev ?? 0` and
`high = next ?? low + 1`.

This is false: with `prev` unbounded the code still takes `lo = 0`, so for
any bounded `next ≤ 0` we get `lo ≥ hi` and the guard throws even though one
side is unbounded.  `orderBetween(null, 0)` is a concrete counterexample. -/

/-- C8 counterexample: `orderBetween(null, 0)` has an unbounded left side yet
fails with `InvalidRange`, contradicting the claim that any call with at
least one unbounded side succeeds. -/
theorem C8_counterexample :
    orderBetween none (some 0) = Except.error "InvalidRange" := by
  with_unfolding_all rfl

/-- C8 amended: `orderBetween` fails with `InvalidRange` exactly when the
right side is bounded by some `n` with `prev ?? 0 ≥ n` (in particular both
sides bounded with `prev ≥ next`, but also an unbounded left against
`next ≤ 0`); in every other case it succeeds and returns `(low+high)/2`
where `low = prev ?? 0` and `high = next ?? low + 1`. -/
theorem C8_amended (prev next : Option ℚ) :
    ((∃ n, next = some n ∧ prev.getD 0 ≥ n) →
      orderBetween prev next = Except.error "InvalidRange") ∧
    ((next = none ∨ ∃ n, next = some n ∧ prev.getD 0 < n) →
      orderBetween prev next =
        Except.ok ((prev.getD 0 + next.getD (prev.getD 0 + 1)) / 2)) := by
  constructor
  · rintro ⟨n, rfl, hn⟩
    simp only [orderBetween, Option.getD_some]
    rw [if_pos hn]
  · rintro (rfl | ⟨n, rfl, hn⟩)
    · simp only [orderBetween, Option.getD_none]
      rw [if_neg (by simp)]
    · simp only [orderBetween, Option.getD_some]
      rw [if_neg (not_le.mpr hn)]

/-- C8 witness: both branches of the amended theorem fire on concrete
inputs — `orderBetween(1, 1)` fails, `orderBetween(1, 2)` returns `3/2`. -/
theorem C8_amended_witness :
    orderBetween (some 1) (some 1) = Except.error "InvalidRange" ∧
    orderBetween (some 1) (some 2) = Except.ok ((3 : ℚ) / 2) := by
  refine ⟨(C8_amended (some 1) (some 1)).1 ⟨1, rfl, le_refl 1⟩, ?_⟩
  have h := (C8_amended (some 1) (some 2)).2
    (Or.inr ⟨2, rfl, by with_unfolding_all decide⟩)
  rw [h]
  norm_num

/-! ## Authoritative cache state (Redis) and the flush queue key space -/

/-- String form of a column id, as used in Redis keys and DB rows. -/
def ColumnId.str : ColumnId → String
  | .todo => "todo"
  | .inProgress => "in-progress"
  | .done => "done"

/-- A BullMQ flush job payload (`jobs/dbFlushWorker.ts`): `upsert` carries the
full task snapshot, `delete` a task id, `rebalance` a column id. -/
inductive FlushJobPayload : Type where
  | upsert (task : Task) : FlushJobPayload
  | delete (taskId : String) : FlushJobPayload
  | rebalance (columnId : ColumnId) : FlushJobPayload
deriving DecidableEq

/-- Deterministic BullMQ job id from `enqueueDatabaseFlush`:
`task_{taskId}` for upsert/delete (they share a slot), `rebalance_{columnId}`
for rebalance. -/
def flushJobId : FlushJobPayload → String
  | .upsert t => "task_" ++ t.id
  | .delete tid => "task_" ++ tid
  | .rebalance c => "rebalance_" ++ c.str

/-- Redis `SADD`: append the member if not present (sets modelled as
duplicate-free lists with a fixed enumeration order). -/
def sadd (l : List String) (x : String) : List String :=
  if x ∈ l then l else l ++ [x]

/-- Redis `SREM`: drop the member. -/
def srem (l : List String) (x : String) : List String :=
  l.filter (fun y => y ≠ x)

/-- The authoritative cache plus the pending flush queue.
`taskMap` models the `task:{id}` hashes, `cols` the `column:{columnId}:tasks`
sets, `board` the `board:tasks` set, and `queue` the BullMQ queue keyed by
deterministic job id (remove-then-re-add debouncing makes it a map). -/
structure ServiceState : Type where
  taskMap : String → Option Task
  cols : ColumnId → List String
  board : List String
  queue : String → Option FlushJobPayload

/-- The empty cache (cold start). -/
def initialState : ServiceState :=
  { taskMap := fun _ => none
    cols := fun _ => []
    board := []
    queue := fun _ => none }

/-- `enqueueDatabaseFlush(payload)` from `jobs/dbFlushWorker.ts`: any pending
job under the same deterministic id is removed, then the new payload is added
(delayed 500 ms; the debounce makes the queue a map from job id to the
latest payload). -/
def enqueueDatabaseFlush (s : ServiceState) (p : FlushJobPayload) : ServiceState :=
  { s with queue := fun j => if j = flushJobId p then some p else s.queue j }

/-- `getTaskFromCache(id)` from `services/taskService.ts`: `HGETALL` plus the
`!hash.id` truthiness guard (a stored empty id reads as a miss). -/
def getTaskFromCache (s : ServiceState) (id : String) : Option Task :=
  match s.taskMap id with
  | some t => if t.id = "" then none else some t
  | none => none

/-- `cacheTask(task)` from `services/taskService.ts`: one pipeline doing
`HSET task:{id}`, `EXPIRE`, `SADD column:{columnId}:tasks`, `SADD board:tasks`. -/
def cacheTask (s : ServiceState) (t : Task) : ServiceState :=
  { s with
    taskMap := fun id => if id = t.id then some t else s.taskMap id
    cols := fun c => if c = t.columnId then sadd (s.cols c) t.id else s.cols c
    board := sadd s.board t.id }

/-- Supabase `select * eq id single`: the rows are keyed by primary key `id`. -/
def dbFind (db : List Task) (id : String) : Option Task :=
  db.find? (fun t => t.id = id)

/-- `getTask(id)` from `services/taskService.ts`: cache-first, falling back to
the durable store and re-populating the cache on a miss. -/
def getTask (db : List Task) (s : ServiceState) (id : String) :
    Option Task × ServiceState :=
  match getTaskFromCache s id with
  | some t => (some t, s)
  | none =>
    match dbFind db id with
    | none => (none, s)
    | some t => (some t, cacheTask s t)

/-- The JS sort comparator `(a, b) => a.order - b.order` as a total Boolean
relation. -/
def taskLe (a b : Task) : Bool :=
  a.order ≤ b.order

/-- `tasks.sort((a, b) => a.order - b.order)` — ascending sort by `order`. -/
def sortByOrder (l : List Task) : List Task :=
  l.mergeSort taskLe

/-- `getAllTasks()` from `services/taskService.ts`: if the `board:tasks` set
is non-empty and at least one task hash is readable, return the cached tasks
sorted by `order`; otherwise cold-boot from the durable store (rows ordered
by `order` ascending), warming the cache with each row. -/
def getAllTasks (db : List Task) (s : ServiceState) : List Task × ServiceState :=
  let ids := s.board
  let cold : List Task × ServiceState :=
    let rows := sortByOrder db
    (rows, rows.foldl cacheTask s)
  if ids.isEmpty then cold
  else
    let tasks := ids.filterMap (fun id => getTaskFromCache s id)
    if tasks.isEmpty then cold
    else (sortByOrder tasks, s)

/-! ## Claim C3 — what order does `getAllTasks` return?

The claim: `getAllTasks()` returns the live tasks sorted by the pair
`(columnId, order)` — grouped by column, `columnId` first, then ascending
`order` within each column.

The code sorts by `order` alone (`.sort((a, b) => a.order - b.order)` in the
warm path, `order by "order" ascending` in the cold path), interleaving
columns freely.  Three tasks with columns `todo`, `done`, `todo` and orders
`1 < 2 < 3` come back in that interleaved sequence, which is not grouped by
column under *any* ordering of the three columns. -/

/-- A list is grouped by column when equal `columnId`s are contiguous:
collapsing adjacent repeats of the column sequence leaves no duplicates.
(Being sorted by `(columnId, order)` under any column ordering implies
this.)  Rendering of the spec's words, for comparison with the code. -/
def spec_groupedByColumnId (l : List Task) : Bool :=
  decide ((l.map Task.columnId).destutter (· ≠ ·)).Nodup

/-- Concrete warm cache for the C3 counterexample: tasks `a` (todo, order 1),
`b` (done, order 2), `c` (todo, order 3). -/
def mkTask (id : String) (col : ColumnId) (q : ℚ) : Task :=
  { id := id, columnId := col, title := id, description := "",
    order := q, createdAt := "t0", updatedAt := "t0", version := 1,
    creatorName := none, creatorColor := none,
    updatedByName := none, updatedByColor := none }

/-- The C3 counterexample cache: three warm tasks across two columns. -/
def stateC3 : ServiceState :=
  (cacheTask (cacheTask (cacheTask initialState (mkTask "a" .todo 1))
    (mkTask "b" .done 2)) (mkTask "c" .todo 3))

/-- C3 counterexample: on a reachable warm cache, `getAllTasks` returns the
column sequence `todo, done, todo` — not grouped by column, hence not sorted
by `(columnId, order)` for any ordering of columns.  The code sorts by
`order` alone. -/
theorem C3_counterexample :
    ((getAllTasks [] stateC3).1.map Task.columnId =
      [ColumnId.todo, ColumnId.done, ColumnId.todo]) ∧
    spec_groupedByColumnId (getAllTasks [] stateC3).1 = false := by
  constructor
  · with_unfolding_all rfl
  · with_unfolding_all rfl

/-- `taskLe` is total. -/
theorem taskLe_total (a b : Task) : taskLe a b || taskLe b a := by
  simp only [taskLe, Bool.or_eq_true, decide_eq_true_eq]
  exact le_total a.order b.order

/-- `taskLe` is transitive. -/
theorem taskLe_trans (a b c : Task) :
    taskLe a b = true → taskLe b c = true → taskLe a c = true := by
  simp only [taskLe, decide_eq_true_eq]
  exact le_trans

/-- `sortByOrder` sorts ascending by `order`. -/
theorem sortByOrder_sorted (l : List Task) :
    (sortByOrder l).Sorted (fun a b => a.order ≤ b.order) := by
  have h := List.sorted_mergeSort taskLe_trans taskLe_total l
  exact h.imp (by simp only [taskLe, decide_eq_true_eq]; exact fun h => h)

/-- `sortByOrder` permutes its input. -/
theorem sortByOrder_perm (l : List Task) : (sortByOrder l).Perm l :=
  List.mergeSort_perm l taskLe

/-- C3 amended: `getAllTasks` returns the live tasks sorted by `order`
*alone* (ascending across all columns, not grouped by `columnId`); in the
warm-cache case the result is a permutation of the tasks read from the
`board:tasks` set. -/
theorem C3_amended (db : List Task) (s : ServiceState) :
    ((getAllTasks db s).1.Sorted (fun a b => a.order ≤ b.order)) ∧
    (s.board.isEmpty = false →
      (s.board.filterMap (fun id => getTaskFromCache s id)).isEmpty = false →
      (getAllTasks db s).1.Perm
        (s.board.filterMap (fun id => getTaskFromCache s id))) := by
  constructor
  · unfold getAllTasks
    by_cases h1 : s.board.isEmpty
    · simp only [h1, if_true]
      exact sortByOrder_sorted db
    · simp only [h1, if_false]
      by_cases h2 : (s.board.filterMap (fun id => getTaskFromCache s id)).isEmpty
      · simp only [h2, if_true]
        exact sortByOrder_sorted db
      · simp only [h2, if_false]
        exact sortByOrder_sorted _
  · intro h1 h2
    unfold getAllTasks
    simp only [h1, h2, if_false]
    exact sortByOrder_perm _

/-- C3 amended witness: on the concrete warm cache of three tasks both
hypotheses hold and the amended theorem applies. -/
theorem C3_amended_witness :
    stateC3.board.isEmpty = false ∧
    (stateC3.board.filterMap (fun id => getTaskFromCache stateC3 id)).isEmpty
      = false ∧
    (getAllTasks [] stateC3).1.Perm
      (stateC3.board.filterMap (fun id => getTaskFromCache stateC3 id)) := by
  refine ⟨by with_unfolding_all rfl, by with_unfolding_all rfl, ?_⟩
  exact (C3_amended [] stateC3).2 (by with_unfolding_all rfl)
    (by with_unfolding_all rfl)

/-! ## services/taskService.ts — the four mutation functions -/

/-- The record transform inside `updateTask`: only `title`/`description`
(and the bookkeeping fields `updatedAt`, `version`, `updatedBy*`) change;
`??` is null-coalescing. -/
def applyUpdate (existing : Task) (payload : UpdateTaskPayload) (now : String) :
    Task :=
  { existing with
    title := payload.title.getD existing.title
    description := payload.description.getD existing.description
    updatedAt := now
    version := existing.version + 1
    updatedByName := payload.updatedByName.orElse fun _ => existing.updatedByName
    updatedByColor :=
      payload.updatedByColor.orElse fun _ => existing.updatedByColor }

/-- The record transform inside `moveTask`: only `columnId`/`order`
(and the bookkeeping fields) change. -/
def applyMove (existing : Task) (payload : MoveTaskPayload) (now : String) :
    Task :=
  { existing with
    columnId := payload.columnId
    order := payload.order
    updatedAt := now
    version := existing.version + 1
    updatedByName := payload.updatedByName.orElse fun _ => existing.updatedByName
    updatedByColor :=
      payload.updatedByColor.orElse fun _ => existing.updatedByColor }

/-- `createTask(payload)` from `services/taskService.ts`: appends to the
bottom of the target column via
`orderBetween(lastTask?.order ?? null, null)`, assigns `version = 1`,
writes the cache and enqueues an `upsert` flush job. -/
def createTask (db : List Task) (s : ServiceState) (payload : CreateTaskPayload)
    (now : String) : ServiceOutcome Task × ServiceState :=
    let allTasks := (getAllTasks db s).1
    let s1 := (getAllTasks db s).2
    let columnTasks :=
      sortByOrder (allTasks.filter (fun t => t.columnId = payload.columnId))
    let lastTask := columnTasks.getLast?
    match orderBetween (lastTask.map Task.order) none with
    | Except.error e => (.err "CREATE_FAILED" e, s1)
    | Except.ok order =>
      let task : Task :=
        { id := payload.id
          columnId := payload.columnId
          title := payload.title
          description := payload.description.getD ""
          order := order
          createdAt := now
          updatedAt := now
          version := 1
          creatorName := some (jsOrString payload.creatorName "Anonymous")
          creatorColor := some (jsOrString payload.creatorColor "#cbd5e1")
          updatedByName := some (jsOrString payload.updatedByName
            (jsOrString payload.creatorName "Anonymous"))
          updatedByColor := some (jsOrString payload.updatedByColor
            (jsOrString payload.creatorColor "#cbd5e1")) }
      let s2 := cacheTask s1 task
      let s3 := enqueueDatabaseFlush s2 (.upsert task)
      (.ok task, s3)

/-- `updateTask(payload)` from `services/taskService.ts`.  A version mismatch
between `payload.version` and the stored version only logs a warning — the
mutation always proceeds against the latest server state. -/
def updateTask (db : List Task) (s : ServiceState) (payload : UpdateTaskPayload)
    (now : String) : ServiceOutcome Task × ServiceState :=
  match getTask db s payload.id with
  | (none, s1) =>
    (.err "NOT_FOUND" ("Task " ++ payload.id ++ " not found"), s1)
  | (some existing, s1) =>
    let updated := applyUpdate existing payload now
    let s2 := cacheTask s1 updated
    let s3 := enqueueDatabaseFlush s2 (.upsert updated)
    (.ok updated, s3)

/-- The write phase of `moveTask`: on a column change the id is `SREM`-ed
from the old column set, then the moved record is cached and an `upsert`
flush job is enqueued (`services/taskService.ts`, the block between the
version check and the neighbour inspection). -/
def moveTaskWrite (s : ServiceState) (existing updated : Task) : ServiceState :=
  let s2 :=
    if existing.columnId ≠ updated.columnId then
      { s with cols := fun c =>
          if c = existing.columnId then srem (s.cols c) existing.id
          else s.cols c }
    else s
  enqueueDatabaseFlush (cacheTask s2 updated) (.upsert updated)

/-- The neighbour-inspection phase of `moveTask`: re-reads all tasks,
restricts to the destination column minus the moved task, sorted by order;
`findIndex((t) => t.order > updated.order)` (−1 mapped to `none`) selects
the landing position; `prevT`/`nextT` are `idx > 0 ? column[idx-1] : null`
and `idx >= 0 ? column[idx] : null`; a rebalance job is enqueued when either
neighbour gap `needsRebalance`. -/
def moveTaskRebalanceCheck (db : List Task) (s : ServiceState) (updated : Task) :
    ServiceState :=
  let allTasks2 := (getAllTasks db s).1
  let s5 := (getAllTasks db s).2
  let column := sortByOrder (allTasks2.filter
    (fun t => t.columnId = updated.columnId ∧ t.id ≠ updated.id))
  let idx := column.findIdx? (fun t => t.order > updated.order)
  let prevT : Option Task :=
    match idx with
    | some i => if 0 < i then column[i-1]? else none
    | none => none
  let nextT : Option Task :=
    match idx with
    | some i => column[i]?
    | none => none
  let needs :=
    (match prevT with
      | some t => needsRebalance t.order updated.order
      | none => false) ||
    (match nextT with
      | some t => needsRebalance updated.order t.order
      | none => false)
  if needs then enqueueDatabaseFlush s5 (.rebalance updated.columnId)
  else s5

/-- `moveTask(payload)` from `services/taskService.ts`.  Assumes the per-task
lock is held by the caller.  `NOT_FOUND` when the task is missing; otherwise
only `columnId`/`order` (plus bookkeeping fields) change, the write phase
updates the cache sets and flush queue, and the neighbour inspection may
enqueue a rebalance job. -/
def moveTask (db : List Task) (s : ServiceState) (payload : MoveTaskPayload)
    (now : String) : ServiceOutcome Task × ServiceState :=
  match getTask db s payload.id with
  | (none, s1) =>
    (.err "NOT_FOUND" ("Task " ++ payload.id ++ " not found"), s1)
  | (some existing, s1) =>
    let updated := applyMove existing payload now
    (.ok updated,
      moveTaskRebalanceCheck db (moveTaskWrite s1 existing updated) updated)

/-- `deleteTask(payload)` from `services/taskService.ts`: idempotent — a
missing task reports success; otherwise one pipeline removes the hash and
both set memberships, then a `delete` flush job is enqueued. -/
def deleteTask (db : List Task) (s : ServiceState) (payload : DeleteTaskPayload) :
    ServiceOutcome String × ServiceState :=
  match getTask db s payload.id with
  | (none, s1) => (.ok payload.id, s1)
  | (some existing, s1) =>
    let s2 :=
      { s1 with
        taskMap := fun id => if id = existing.id then none else s1.taskMap id
        cols := fun c =>
          if c = existing.columnId then srem (s1.cols c) existing.id
          else s1.cols c
        board := srem s1.board existing.id }
    let s3 := enqueueDatabaseFlush s2 (.delete payload.id)
    (.ok payload.id, s3)

/-! ## Plumbing lemmas -/

/-- A cache hit leaves the state untouched. -/
theorem getTask_of_cacheHit {s : ServiceState} {id : String} {T : Task}
    (h : getTaskFromCache s id = some T) (db : List Task) :
    getTask db s id = (some T, s) := by
  unfold getTask
  rw [h]

/-- A cache hit forces a non-empty stored id. -/
theorem id_ne_empty_of_cacheHit {s : ServiceState} {id : String} {T : Task}
    (h : getTaskFromCache s id = some T) : T.id ≠ "" := by
  unfold getTaskFromCache at h
  rcases h' : s.taskMap id with _ | t
  · rw [h'] at h
    exact absurd h (by simp)
  · rw [h'] at h
    have h2 : (if t.id = "" then (none : Option Task) else some t) = some T := h
    by_cases he : t.id = ""
    · rw [if_pos he] at h2
      exact absurd h2 (by simp)
    · rw [if_neg he] at h2
      cases h2
      exact he

/-- Reading back a freshly cached task (under its own id). -/
theorem getTaskFromCache_cacheTask_self {s : ServiceState} {t : Task}
    (h : t.id ≠ "") : getTaskFromCache (cacheTask s t) t.id = some t := by
  unfold getTaskFromCache cacheTask
  simp [h]

/-- `cacheTask` does not change the flush queue. -/
theorem cacheTask_queue (s : ServiceState) (t : Task) :
    (cacheTask s t).queue = s.queue := rfl

/-- `sadd` always contains the added member. -/
theorem mem_sadd_self (l : List String) (x : String) : x ∈ sadd l x := by
  unfold sadd
  by_cases h : x ∈ l
  · rwa [if_pos h]
  · rw [if_neg h]
    exact List.mem_append_right l (List.mem_singleton.mpr rfl)

/-- In a list sorted ascending by `order`, every member's order is bounded by
the last element's order. -/
theorem sorted_order_le_getLast :
    ∀ {l : List Task}, l.Sorted (fun a b => a.order ≤ b.order) →
      ∀ {u : Task}, u ∈ l → ∃ m, l.getLast? = some m ∧ u.order ≤ m.order := by
  intro l
  induction l with
  | nil => intro _ u hu; cases hu
  | cons a rest ih =>
    intro hs u hu
    cases rest with
    | nil =>
      rcases List.mem_singleton.mp hu with rfl
      exact ⟨u, rfl, le_refl _⟩
    | cons b t =>
      have htail : (b :: t).Sorted (fun a b => a.order ≤ b.order) :=
        (List.sorted_cons.mp hs).2
      have hlast : (a :: b :: t).getLast? = (b :: t).getLast? := by
        simp [List.getLast?]
      rcases List.mem_cons.mp hu with rfl | hmem
      · obtain ⟨m, hm, hbm⟩ := ih htail (List.mem_cons_self b t)
        refine ⟨m, by rw [hlast]; exact hm, ?_⟩
        have hab : u.order ≤ b.order :=
          (List.sorted_cons.mp hs).1 b (List.mem_cons_self b t)
        exact le_trans hab hbm
      · obtain ⟨m, hm, hum⟩ := ih htail hmem
        exact ⟨m, by rw [hlast]; exact hm, hum⟩

/-! ## Claim C5 — `updateTask` frame conditions and version policy

The claim: for every existing task and every valid `TASK_UPDATE` payload,
`updateTask` succeeds regardless of whether `payload.version` matches the
stored version, alters only `title`, `description`, `updatedAt`,
`updatedBy*` and `version`, leaves `columnId`, `order`, `createdAt`,
`creatorName`, `creatorColor` (and `id`) unchanged, and sets `version` to the
prior stored version plus one. -/

/-- C5: `updateTask` on a cached task succeeds for *every* payload version
(the payload's `version` field is unconstrained below — a mismatch never
rejects), applies `title`/`description` over the latest server state, stamps
`updatedAt`/`updatedBy*`, increments `version` by exactly one, and leaves
`id`, `columnId`, `order`, `createdAt` and `creator*` untouched. -/
theorem C5_updateTask_frame (db : List Task) (s : ServiceState)
    (u : UpdateTaskPayload) (now : String) (T : Task)
    (h : getTaskFromCache s u.id = some T) :
    ∃ t', (updateTask db s u now).1 = .ok t' ∧
      t'.title = u.title.getD T.title ∧
      t'.description = u.description.getD T.description ∧
      t'.updatedAt = now ∧
      t'.version = T.version + 1 ∧
      t'.updatedByName = (u.updatedByName.orElse fun _ => T.updatedByName) ∧
      t'.updatedByColor = (u.updatedByColor.orElse fun _ => T.updatedByColor) ∧
      t'.id = T.id ∧
      t'.columnId = T.columnId ∧
      t'.order = T.order ∧
      t'.createdAt = T.createdAt ∧
      t'.creatorName = T.creatorName ∧
      t'.creatorColor = T.creatorColor := by
  refine ⟨applyUpdate T u now, ?_, by simp [applyUpdate]⟩
  unfold updateTask
  rw [getTask_of_cacheHit h db]

/-- C5 witness: a concrete cached task updated with a *mismatched* payload
version (payload version 7 against stored version 3) still succeeds and
yields version 4. -/
theorem C5_witness :
    getTaskFromCache (cacheTask initialState (mkTask "a" .todo 1))
      "a" = some (mkTask "a" .todo 1) ∧
    ∃ t', (updateTask [] (cacheTask initialState (mkTask "a" .todo 1))
        { id := "a", title := some "new", description := none, version := 7,
          updatedByName := none, updatedByColor := none } "t9").1 = .ok t' ∧
      t'.title = "new" ∧ t'.version = 2 := by
  have hhit : getTaskFromCache (cacheTask initialState (mkTask "a" .todo 1))
      "a" = some (mkTask "a" .todo 1) := by with_unfolding_all rfl
  refine ⟨hhit, ?_⟩
  obtain ⟨t', h1, h2, _, _, h5, _⟩ :=
    C5_updateTask_frame [] (cacheTask initialState (mkTask "a" .todo 1))
      { id := "a", title := some "new", description := none, version := 7,
        updatedByName := none, updatedByColor := none } "t9"
      (mkTask "a" .todo 1) hhit
  exact ⟨t', h1, h2, h5⟩

/-! ## Claim C7 — `createTask` order and version

The claim: `createTask` returns a task with `version = 1` and
`order = between(maxOrderInColumn, unbounded)` where `maxOrderInColumn` is
the largest order among existing tasks of the target column (unbounded when
the column is empty); an empty column yields `order = 0.5`. -/

/-- C7: `createTask` always succeeds with `version = 1`; its `order` is the
value of `orderBetween` applied to the last order of the column sorted
ascending — which the accompanying conjunct shows is the *largest* order in
the target column — and `null`; an empty target column yields `order = 1/2`. -/
theorem C7_createTask_order (db : List Task) (s : ServiceState)
    (p : CreateTaskPayload) (now : String) :
    ∃ t, (createTask db s p now).1 = .ok t ∧ t.version = 1 ∧
      (orderBetween
        ((sortByOrder ((getAllTasks db s).1.filter
          (fun x => x.columnId = p.columnId))).getLast?.map Task.order)
        none = Except.ok t.order) ∧
      (∀ u ∈ (getAllTasks db s).1.filter (fun x => x.columnId = p.columnId),
        ∃ m, (sortByOrder ((getAllTasks db s).1.filter
          (fun x => x.columnId = p.columnId))).getLast? = some m ∧
          u.order ≤ m.order) ∧
      ((getAllTasks db s).1.filter (fun x => x.columnId = p.columnId) = [] →
        t.order = 1 / 2) := by
  have hORD : ∀ o : Option ℚ,
      orderBetween o none = Except.ok ((o.getD 0 + (o.getD 0 + 1)) / 2) := by
    intro o
    unfold orderBetween
    simp only [Option.getD_none]
    rw [if_neg (by push_neg; linarith)]
  unfold createTask
  simp only [hORD]
  refine ⟨_, rfl, rfl, rfl, ?_, ?_⟩
  · intro u hu
    have hperm := sortByOrder_perm
      ((getAllTasks db s).1.filter (fun x => x.columnId = p.columnId))
    have hu' : u ∈ sortByOrder
        ((getAllTasks db s).1.filter (fun x => x.columnId = p.columnId)) :=
      hperm.mem_iff.mpr hu
    exact sorted_order_le_getLast (sortByOrder_sorted _) hu'
  · intro hempty
    show ((Option.map Task.order (sortByOrder
      ((getAllTasks db s).1.filter
        (fun x => x.columnId = p.columnId))).getLast?).getD 0 +
      ((Option.map Task.order (sortByOrder
      ((getAllTasks db s).1.filter
        (fun x => x.columnId = p.columnId))).getLast?).getD 0 + 1)) / 2 = 1 / 2
    rw [hempty]
    simp only [sortByOrder, List.mergeSort_nil, List.getLast?_nil,
      Option.map_none, Option.getD_none]
    norm_num

/-- C7 witness: creating into the empty board yields `order = 1/2` and
`version = 1`. -/
theorem C7_witness :
    ∃ t, (createTask [] initialState
      { id := "n1", columnId := .todo, title := "A", description := none,
        creatorName := none, creatorColor := none,
        updatedByName := none, updatedByColor := none } "t0").1 = .ok t ∧
      t.version = 1 ∧ t.order = 1 / 2 := by
  obtain ⟨t, h1, h2, _, _, h5⟩ :=
    C7_createTask_order [] initialState
      { id := "n1", columnId := .todo, title := "A", description := none,
        creatorName := none, creatorColor := none,
        updatedByName := none, updatedByColor := none } "t0"
  exact ⟨t, h1, h2, h5 (by with_unfolding_all rfl)⟩

/-! ## State plumbing for `updateTask`/`moveTask` -/

/-- `getTaskFromCache` reads only the task hashes. -/
theorem getTaskFromCache_congr {a b : ServiceState} (h : a.taskMap = b.taskMap)
    (id : String) : getTaskFromCache a id = getTaskFromCache b id := by
  unfold getTaskFromCache
  rw [h]

/-- Full equation for `updateTask` on a cache hit. -/
theorem updateTask_hit (db : List Task) (now : String) {s : ServiceState}
    {p : UpdateTaskPayload} {T : Task}
    (h : getTaskFromCache s p.id = some T) :
    updateTask db s p now =
      (.ok (applyUpdate T p now),
        enqueueDatabaseFlush (cacheTask s (applyUpdate T p now))
          (.upsert (applyUpdate T p now))) := by
  unfold updateTask
  rw [getTask_of_cacheHit h db]

/-- The task-hash map after the write phase of a move. -/
theorem moveTaskWrite_taskMap (s : ServiceState) (ex t' : Task) :
    (moveTaskWrite s ex t').taskMap =
      fun id => if id = t'.id then some t' else s.taskMap id := by
  unfold moveTaskWrite enqueueDatabaseFlush cacheTask
  split <;> rfl

/-- The board set after the write phase of a move. -/
theorem moveTaskWrite_board (s : ServiceState) (ex t' : Task) :
    (moveTaskWrite s ex t').board = sadd s.board t'.id := by
  unfold moveTaskWrite enqueueDatabaseFlush cacheTask
  split <;> rfl

/-- The neighbour inspection only reads state and possibly enqueues a
rebalance job: the task hashes are those left by `getAllTasks`. -/
theorem moveTaskRebalanceCheck_taskMap (db : List Task) (s : ServiceState)
    (t' : Task) :
    (moveTaskRebalanceCheck db s t').taskMap = ((getAllTasks db s).2).taskMap := by
  simp only [moveTaskRebalanceCheck]
  split <;> rfl

/-- A warm cache (some member of `board:tasks` has a readable hash) makes
`getAllTasks` a pure read. -/
theorem getAllTasks_warm {s : ServiceState} (db : List Task) {x : String}
    {t : Task} (hx : x ∈ s.board) (ht : getTaskFromCache s x = some t) :
    getAllTasks db s =
      (sortByOrder (s.board.filterMap (fun id => getTaskFromCache s id)), s) := by
  have hb : s.board.isEmpty = false := by
    have hne : s.board ≠ [] := List.ne_nil_of_mem hx
    simpa using hne
  have htne : s.board.filterMap (fun id => getTaskFromCache s id) ≠ [] := by
    intro hnil
    have hmem : t ∈ s.board.filterMap (fun id => getTaskFromCache s id) :=
      List.mem_filterMap.mpr ⟨x, hx, ht⟩
    rw [hnil] at hmem
    cases hmem
  have ht2 : (s.board.filterMap (fun id => getTaskFromCache s id)).isEmpty
      = false := by simpa using htne
  unfold getAllTasks
  simp [hb, ht2]

/-- Reading back a freshly moved task. -/
theorem getTaskFromCache_moveTaskWrite_self {s : ServiceState} {ex t' : Task}
    (hne : t'.id ≠ "") :
    getTaskFromCache (moveTaskWrite s ex t') t'.id = some t' := by
  unfold getTaskFromCache
  rw [moveTaskWrite_taskMap]
  simp [hne]

/-- Outcome of `moveTask` on a cache hit. -/
theorem moveTask_fst (db : List Task) (now : String) {s : ServiceState}
    {m : MoveTaskPayload} {T : Task} (h : getTaskFromCache s m.id = some T) :
    (moveTask db s m now).1 = .ok (applyMove T m now) := by
  unfold moveTask
  rw [getTask_of_cacheHit h db]

/-- After a `moveTask` on a cache hit (with a well-keyed hash), the moved
record is readable from the cache under its id. -/
theorem getTaskFromCache_moveTask (db : List Task) (now : String)
    {s : ServiceState} {m : MoveTaskPayload} {T : Task}
    (h : getTaskFromCache s m.id = some T) (hid : T.id = m.id) :
    getTaskFromCache (moveTask db s m now).2 m.id = some (applyMove T m now) := by
  have hne0 : T.id ≠ "" := id_ne_empty_of_cacheHit h
  have hne : (applyMove T m now).id ≠ "" := hne0
  have hid2 : (applyMove T m now).id = m.id := hid
  unfold moveTask
  rw [getTask_of_cacheHit h db]
  have hhit : getTaskFromCache (moveTaskWrite s T (applyMove T m now))
      ((applyMove T m now).id) = some (applyMove T m now) :=
    getTaskFromCache_moveTaskWrite_self hne
  have hmem : (applyMove T m now).id ∈
      (moveTaskWrite s T (applyMove T m now)).board := by
    rw [moveTaskWrite_board]
    exact mem_sadd_self _ _
  have hwarm := getAllTasks_warm db hmem hhit
  have hsnd : (getAllTasks db (moveTaskWrite s T (applyMove T m now))).2 =
      moveTaskWrite s T (applyMove T m now) := by rw [hwarm]
  have hcongr := getTaskFromCache_congr
    (a := moveTaskRebalanceCheck db (moveTaskWrite s T (applyMove T m now))
      (applyMove T m now))
    (b := moveTaskWrite s T (applyMove T m now))
    (by rw [moveTaskRebalanceCheck_taskMap, hsnd]) m.id
  show getTaskFromCache (moveTaskRebalanceCheck db
    (moveTaskWrite s T (applyMove T m now)) (applyMove T m now)) m.id = _
  rw [hcongr, ← hid2]
  exact hhit

/-! ## Claim C4 — concurrent move + edit merge losslessly and commute

The claim: for every existing task `T`, valid `TASK_UPDATE` payload `u` and
valid `TASK_MOVE` payload `m`, applying `updateTask(u)` and `moveTask(m)` in
either order yields the same converged record — `title`/`description` from
`u`, `columnId`/`order` from `m` — with `version` advanced by exactly two,
and neither operation produces a `CONFLICT_NOTIFY`.

In the embedding both operations are ordinary service calls; `CONFLICT_NOTIFY`
is only ever built by the move *handler* when the per-task lock acquisition
fails (see the C2 model below), never by `updateTask`/`moveTask`, and both
outcomes below are `ok`.  The hypotheses `updatedBy* = none` say that the
payloads are schema-validated (`UpdateTaskPayloadSchema` and
`MoveTaskPayloadSchema` admit no `updatedBy*` keys, and zod strips unknown
keys). -/

/-- C4: on the same cached task, update-then-move and move-then-update both
succeed and converge to the *same* record: title/description from `u`,
column/order from `m`, version exactly two above the starting version. -/
theorem C4_move_edit_commute (db : List Task) (s : ServiceState)
    (u : UpdateTaskPayload) (m : MoveTaskPayload) (now1 now2 : String) (T : Task)
    (h : getTaskFromCache s u.id = some T) (hid : T.id = u.id)
    (hmu : m.id = u.id)
    (hu1 : u.updatedByName = none) (hu2 : u.updatedByColor = none)
    (hm1 : m.updatedByName = none) (hm2 : m.updatedByColor = none) :
    ∃ t : Task,
      (updateTask db s u now1).1 = .ok (applyUpdate T u now1) ∧
      (moveTask db s m now1).1 = .ok (applyMove T m now1) ∧
      (moveTask db (updateTask db s u now1).2 m now2).1 = .ok t ∧
      (updateTask db (moveTask db s m now1).2 u now2).1 = .ok t ∧
      t.title = u.title.getD T.title ∧
      t.description = u.description.getD T.description ∧
      t.columnId = m.columnId ∧
      t.order = m.order ∧
      t.version = T.version + 2 := by
  have hTm : T.id = m.id := hid.trans hmu.symm
  have hT' : getTaskFromCache s m.id = some T := by rw [hmu]; exact h
  have hneU0 : T.id ≠ "" := id_ne_empty_of_cacheHit h
  have hneU : (applyUpdate T u now1).id ≠ "" := hneU0
  -- update-then-move
  have hupd := updateTask_hit db now1 h
  have h1 : getTaskFromCache (updateTask db s u now1).2 m.id
      = some (applyUpdate T u now1) := by
    rw [hupd]
    have hidU : (applyUpdate T u now1).id = m.id := hTm
    rw [← hidU]
    exact getTaskFromCache_cacheTask_self hneU
  have hmove2 := moveTask_fst db now2 h1
  -- move-then-update
  have hmv1 := moveTask_fst db now1 hT'
  have h2 : getTaskFromCache (moveTask db s m now1).2 u.id
      = some (applyMove T m now1) := by
    rw [← hmu]
    exact getTaskFromCache_moveTask db now1 hT' hTm
  have hupd2 := updateTask_hit db now2 h2
  -- the two converged records are the same task
  have hcomm : applyMove (applyUpdate T u now1) m now2
      = applyUpdate (applyMove T m now1) u now2 := by
    simp [applyMove, applyUpdate, hu1, hu2, hm1, hm2]
  refine ⟨applyMove (applyUpdate T u now1) m now2, by rw [hupd], hmv1,
    hmove2, ?_, rfl, rfl, rfl, rfl, rfl⟩
  rw [hupd2, hcomm]

/-- C4 witness: a concrete task, one title edit and one cross-column move,
applied in both orders. -/
theorem C4_witness :
    ∃ t : Task,
      (moveTask []
        (updateTask [] (cacheTask initialState (mkTask "a" .todo 1))
          { id := "a", title := some "T2", description := none, version := 1,
            updatedByName := none, updatedByColor := none } "n1").2
        { id := "a", columnId := .done, order := 7, version := 1,
          updatedByName := none, updatedByColor := none } "n2").1 = .ok t ∧
      (updateTask []
        (moveTask [] (cacheTask initialState (mkTask "a" .todo 1))
          { id := "a", columnId := .done, order := 7, version := 1,
            updatedByName := none, updatedByColor := none } "n1").2
        { id := "a", title := some "T2", description := none, version := 1,
          updatedByName := none, updatedByColor := none } "n2").1 = .ok t ∧
      t.title = "T2" ∧ t.columnId = .done ∧ t.order = 7 ∧ t.version = 3 := by
  obtain ⟨t, _, _, h3, h4, h5, _, h7, h8, h9⟩ :=
    C4_move_edit_commute [] (cacheTask initialState (mkTask "a" .todo 1))
      { id := "a", title := some "T2", description := none, version := 1,
        updatedByName := none, updatedByColor := none }
      { id := "a", columnId := .done, order := 7, version := 1,
        updatedByName := none, updatedByColor := none }
      "n1" "n2" (mkTask "a" .todo 1)
      (by with_unfolding_all rfl) rfl rfl rfl rfl rfl rfl
  exact ⟨t, h3, h4, h5, h7, h8, h9⟩

/-! ## Claim C6 — when does a move enqueue a rebalance job?

The claim: after a successful `moveTask`, a rebalance job for the destination
column is enqueued exactly when the gap between the moved task's order and
either adjacent task (nearest neighbour above or below in sorted order) is
smaller than `1e-9`.

The code computes the landing position with
`column.findIndex((t) => t.order > updated.order)`.  When the moved task
lands at or below the bottom of the column (no strictly greater order
exists) `findIndex` returns `-1`, both `prevT` and `nextT` are `null`, and
*no* neighbour is inspected — even though the nearest neighbour below may be
closer than `1e-9`.  The spec (and the code's own comment, "Check if
adjacent orders need rebalancing") clearly intend both neighbours of the
landing position to be checked; skipping the below-neighbour at bottom
placement is a slip, so this is recorded as a code bug. -/

/-- C6 failing-input evaluation: column `done` holds task `b` with order `5`;
task `a` is moved to `done` with order `5 + 1e-10`.  The below-neighbour gap
is `1e-10 < 1e-9` (second conjunct), yet the move succeeds with *no*
rebalance job enqueued for `done` (first and third conjuncts): `findIndex`
returned `-1`. -/
theorem C6_code_eval :
    (moveTask []
      (cacheTask (cacheTask initialState (mkTask "a" .todo 1)) (mkTask "b" .done 5))
      { id := "a", columnId := .done, order := 5 + 1 / 10000000000, version := 1,
        updatedByName := none, updatedByColor := none } "t1").1 =
      .ok (applyMove (mkTask "a" .todo 1)
        { id := "a", columnId := .done, order := 5 + 1 / 10000000000, version := 1,
          updatedByName := none, updatedByColor := none } "t1") ∧
    needsRebalance (5 : ℚ) (5 + 1 / 10000000000) = true ∧
    (moveTask []
      (cacheTask (cacheTask initialState (mkTask "a" .todo 1)) (mkTask "b" .done 5))
      { id := "a", columnId := .done, order := 5 + 1 / 10000000000, version := 1,
        updatedByName := none, updatedByColor := none } "t1").2.queue
      "rebalance_done" = none := by
  refine ⟨by with_unfolding_all rfl, by with_unfolding_all decide,
    by with_unfolding_all rfl⟩

/-! ## Claim C9 — column-set membership invariant

The claim: after every completed operation (`createTask`, `updateTask`,
`moveTask`, `deleteTask`), every id in the cache's `board:tasks` set lies in
exactly one per-column set — the one for its task's current `columnId` —
and an id absent from `board:tasks` lies in no column set.

Operations are modelled as a trace folded over the service functions.  A
`TASK_CREATE` is assumed to carry a globally fresh id (the spec's data model:
ids are client-generated UUIDs, unique across the board; this is the
`opOk` hypothesis), and the durable store rows are assumed key-consistent
(`dbWf`: primary-key ids, no duplicates, non-empty). -/

/-- A mutation arriving at the service layer. -/
inductive BoardOp : Type where
  | create (p : CreateTaskPayload) (now : String) : BoardOp
  | update (p : UpdateTaskPayload) (now : String) : BoardOp
  | move (p : MoveTaskPayload) (now : String) : BoardOp
  | delete (p : DeleteTaskPayload) : BoardOp
deriving DecidableEq

/-- State effect of one operation. -/
def applyOp (db : List Task) (s : ServiceState) : BoardOp → ServiceState
  | .create p now => (createTask db s p now).2
  | .update p now => (updateTask db s p now).2
  | .move p now => (moveTask db s p now).2
  | .delete p => (deleteTask db s p).2

/-- Fold a trace of operations over the cache. -/
def runOps (db : List Task) (s : ServiceState) : List BoardOp → ServiceState
  | [] => s
  | op :: rest => runOps db (applyOp db s op) rest

/-- Durable-store well-formedness: `tasks.id` is a primary key and ids are
non-empty (`id uuid primary key` in the migration). -/
def dbWf (db : List Task) : Prop :=
  (db.map Task.id).Nodup ∧ ∀ t ∈ db, t.id ≠ ""

/-- Contract on one operation: a `TASK_CREATE` carries a fresh,
well-formed id (client-generated UUID, unique across the board and store);
updates, moves and deletes are unrestricted. -/
def opOk (db : List Task) (s : ServiceState) : BoardOp → Prop
  | .create p _ => s.taskMap p.id = none ∧ dbFind db p.id = none ∧ p.id ≠ ""
  | .update _ _ => True
  | .move _ _ => True
  | .delete _ => True

instance (db : List Task) (s : ServiceState) (op : BoardOp) :
    Decidable (opOk db s op) := by
  cases op <;> simp only [opOk] <;> infer_instance

/-- All creates along a trace are fresh at the state where they execute
(Boolean so that concrete traces evaluate). -/
def freshRun (db : List Task) (s : ServiceState) : List BoardOp → Bool
  | [] => true
  | op :: rest => decide (opOk db s op) && freshRun db (applyOp db s op) rest

/-- The authoritative-cache well-formedness invariant: column sets only hold
board members; every stored hash key is a board member; and every board
member has a well-keyed hash and lies in exactly the column set named by its
`columnId`. -/
structure CacheInv (s : ServiceState) : Prop where
  colsSub : ∀ c, ∀ id ∈ s.cols c, id ∈ s.board
  keysSub : ∀ id, s.taskMap id ≠ none → id ∈ s.board
  boardOk : ∀ id ∈ s.board, id ≠ "" ∧ ∃ t, s.taskMap id = some t ∧ t.id = id ∧
    ∀ c, (id ∈ s.cols c ↔ c = t.columnId)

/-- `SADD` membership. -/
theorem mem_sadd {l : List String} {x y : String} :
    x ∈ sadd l y ↔ x ∈ l ∨ x = y := by
  unfold sadd
  by_cases h : y ∈ l
  · rw [if_pos h]
    constructor
    · exact Or.inl
    · rintro (hx | rfl) <;> [exact hx; exact h]
  · rw [if_neg h]
    simp [List.mem_append]

/-- `SREM` membership. -/
theorem mem_srem {l : List String} {x y : String} :
    x ∈ srem l y ↔ x ∈ l ∧ x ≠ y := by
  unfold srem
  simp [List.mem_filter]

/-- Looking up a well-formed state relates a hash hit to board and column
membership. -/
theorem inv_lookup {s : ServiceState} (hInv : CacheInv s) {id : String}
    {t : Task} (h : s.taskMap id = some t) :
    t.id = id ∧ id ∈ s.board ∧ id ≠ "" ∧
      ∀ c, (id ∈ s.cols c ↔ c = t.columnId) := by
  have hb : id ∈ s.board := hInv.keysSub id (by rw [h]; exact Option.some_ne_none t)
  obtain ⟨hne, t0, ht0, hid0, hcols⟩ := hInv.boardOk id hb
  rw [h] at ht0
  cases ht0
  exact ⟨hid0, hb, hne, hcols⟩

/-- The flush queue is invisible to the invariant. -/
theorem inv_enqueue {s : ServiceState} (hInv : CacheInv s)
    (p : FlushJobPayload) : CacheInv (enqueueDatabaseFlush s p) :=
  ⟨hInv.colsSub, hInv.keysSub, hInv.boardOk⟩

/-- `cacheTask` preserves the invariant when the written record's id is
well-formed and is not sitting in any *other* column set. -/
theorem inv_cacheTask {s : ServiceState} (hInv : CacheInv s) {t : Task}
    (hne : t.id ≠ "") (hcols : ∀ c, t.id ∈ s.cols c → c = t.columnId) :
    CacheInv (cacheTask s t) := by
  refine ⟨?_, ?_, ?_⟩
  · intro c id hid
    show id ∈ sadd s.board t.id
    rw [mem_sadd]
    unfold cacheTask at hid
    simp only at hid
    by_cases hc : c = t.columnId
    · rw [if_pos hc] at hid
      rcases mem_sadd.mp hid with hold | rfl
      · exact Or.inl (hInv.colsSub c id hold)
      · exact Or.inr rfl
    · rw [if_neg hc] at hid
      exact Or.inl (hInv.colsSub c id hid)
  · intro id hmap
    show id ∈ sadd s.board t.id
    rw [mem_sadd]
    unfold cacheTask at hmap
    simp only at hmap
    by_cases hidt : id = t.id
    · exact Or.inr hidt
    · rw [if_neg hidt] at hmap
      exact Or.inl (hInv.keysSub id hmap)
  · intro id hid
    rcases mem_sadd.mp hid with hold | rfl
    · by_cases hidt : id = t.id
      · subst hidt
        refine ⟨hne, t, ?_, rfl, ?_⟩
        · show (if t.id = t.id then some t else s.taskMap t.id) = some t
          rw [if_pos rfl]
        · intro c
          show t.id ∈ (if c = t.columnId then sadd (s.cols c) t.id
            else s.cols c) ↔ c = t.columnId
          by_cases hc : c = t.columnId
          · rw [if_pos hc]
            simpa [mem_sadd] using hc
          · rw [if_neg hc]
            constructor
            · intro hmem
              exact absurd (hcols c hmem) hc
            · intro hcc
              exact absurd hcc hc
      · obtain ⟨hne0, t0, ht0, hid0, hcols0⟩ := hInv.boardOk id hold
        refine ⟨hne0, t0, ?_, hid0, ?_⟩
        · show (if id = t.id then some t else s.taskMap id) = some t0
          rw [if_neg hidt]
          exact ht0
        · intro c
          show id ∈ (if c = t.columnId then sadd (s.cols c) t.id
            else s.cols c) ↔ c = t0.columnId
          by_cases hc : c = t.columnId
          · rw [if_pos hc, mem_sadd]
            constructor
            · rintro (hmem | rfl)
              · exact (hcols0 c).mp hmem
              · exact absurd rfl hidt
            · intro hcc
              exact Or.inl ((hcols0 c).mpr hcc)
          · rw [if_neg hc]
            exact hcols0 c
    · refine ⟨hne, t, ?_, rfl, ?_⟩
      · show (if t.id = t.id then some t else s.taskMap t.id) = some t
        rw [if_pos rfl]
      · intro c
        show t.id ∈ (if c = t.columnId then sadd (s.cols c) t.id
          else s.cols c) ↔ c = t.columnId
        by_cases hc : c = t.columnId
        · rw [if_pos hc]
          simpa [mem_sadd] using hc
        · rw [if_neg hc]
          constructor
          · intro hmem
            exact absurd (hcols c hmem) hc
          · intro hcc
            exact absurd hcc hc

/-- Warming an invariant-satisfying cache with fresh, key-distinct rows
preserves the invariant. -/
theorem inv_warmFold :
    ∀ (rows : List Task) (s : ServiceState), CacheInv s →
      (∀ t ∈ rows, t.id ≠ "" ∧ ∀ c, t.id ∉ s.cols c) →
      (rows.map Task.id).Nodup →
      CacheInv (rows.foldl cacheTask s) := by
  intro rows
  induction rows with
  | nil => intro s h _ _; exact h
  | cons r rest ih =>
    intro s hInv hfresh hnodup
    have hr := hfresh r (List.mem_cons_self r rest)
    have hInv' : CacheInv (cacheTask s r) :=
      inv_cacheTask hInv hr.1 (fun c hmem => absurd hmem (hr.2 c))
    have hnodup' : ((rest.map Task.id)).Nodup := (List.nodup_cons.mp hnodup).2
    have hrid : r.id ∉ rest.map Task.id := (List.nodup_cons.mp hnodup).1
    refine ih (cacheTask s r) hInv' ?_ hnodup'
    intro t ht
    refine ⟨(hfresh t (List.mem_cons_of_mem r ht)).1, ?_⟩
    intro c hmem
    unfold cacheTask at hmem
    simp only at hmem
    have htid : t.id ≠ r.id := by
      intro he
      exact hrid (he ▸ List.mem_map_of_mem Task.id ht)
    by_cases hc : c = r.columnId
    · rw [if_pos hc] at hmem
      rcases mem_sadd.mp hmem with hold | he
      · exact (hfresh t (List.mem_cons_of_mem r ht)).2 c hold
      · exact htid he
    · rw [if_neg hc] at hmem
      exact (hfresh t (List.mem_cons_of_mem r ht)).2 c hmem

/-- Unpacking a cache hit: the hash is stored under the key and carries a
non-empty id. -/
theorem getTaskFromCache_eq_some {s : ServiceState} {id : String} {t : Task} :
    getTaskFromCache s id = some t ↔ s.taskMap id = some t ∧ t.id ≠ "" := by
  unfold getTaskFromCache
  rcases h : s.taskMap id with _ | t0
  · simp
  · show (if t0.id = "" then (none : Option Task) else some t0) = some t ↔
      some t0 = some t ∧ t.id ≠ ""
    by_cases he : t0.id = ""
    · rw [if_pos he]
      constructor
      · intro hx; cases hx
      · rintro ⟨ht, hne⟩
        cases ht
        exact absurd he hne
    · rw [if_neg he]
      constructor
      · intro hx
        cases hx
        exact ⟨rfl, he⟩
      · rintro ⟨ht, _⟩
        cases ht
        rfl

/-- An id whose board membership is backed by the invariant always reads
back from the cache. -/
theorem cacheHit_of_mem_board {s : ServiceState} (hInv : CacheInv s)
    {id : String} (hb : id ∈ s.board) :
    ∃ t, getTaskFromCache s id = some t := by
  obtain ⟨hne, t, ht, hid, _⟩ := hInv.boardOk id hb
  exact ⟨t, getTaskFromCache_eq_some.mpr ⟨ht, hid ▸ hne⟩⟩

/-- The freshly written hash reads back. -/
theorem cacheTask_taskMap_self (s : ServiceState) (t : Task) :
    (cacheTask s t).taskMap t.id = some t := by
  show (if t.id = t.id then some t else s.taskMap t.id) = some t
  rw [if_pos rfl]

/-- `getAllTasks` preserves the invariant (pure read when warm; a cold boot
only happens from the empty cache and then warms it with the store rows). -/
theorem inv_getAllTasks {s : ServiceState} (db : List Task)
    (hdb : dbWf db) (hInv : CacheInv s) : CacheInv (getAllTasks db s).2 := by
  unfold getAllTasks
  by_cases hb : s.board.isEmpty
  · -- empty board: under the invariant every column set and the hash map are
    -- empty, so warming the sorted store rows starts from a fresh cache
    have hbnil : s.board = [] := by simpa using hb
    have hemptycols : ∀ c, s.cols c = [] := by
      intro c
      rcases hc : s.cols c with _ | ⟨y, ys⟩
      · rfl
      · have hmem : y ∈ s.board :=
          hInv.colsSub c y (by rw [hc]; exact List.mem_cons_self y ys)
        rw [hbnil] at hmem
        cases hmem
    have hperm : (sortByOrder db).Perm db := sortByOrder_perm db
    have hfresh : ∀ t ∈ sortByOrder db, t.id ≠ "" ∧ ∀ c, t.id ∉ s.cols c := by
      intro t ht
      refine ⟨hdb.2 t (hperm.mem_iff.mp ht), ?_⟩
      intro c hmem
      rw [hemptycols c] at hmem
      cases hmem
    have hnodup : ((sortByOrder db).map Task.id).Nodup :=
      (hperm.map Task.id).nodup_iff.mpr hdb.1
    simp only [hb, if_true]
    exact inv_warmFold (sortByOrder db) s hInv hfresh hnodup
  · -- non-empty board: the invariant supplies a readable hash for every
    -- member, so the warm branch returns the state unchanged
    have hbne : s.board ≠ [] := by simpa using hb
    obtain ⟨y, hy⟩ := List.exists_mem_of_ne_nil s.board hbne
    obtain ⟨t, hhit⟩ := cacheHit_of_mem_board hInv hy
    have htasks : ¬((s.board.filterMap
        (fun id => getTaskFromCache s id)).isEmpty = true) := by
      have hmem : t ∈ s.board.filterMap (fun id => getTaskFromCache s id) :=
        List.mem_filterMap.mpr ⟨y, hy, hhit⟩
      have hnn : s.board.filterMap (fun id => getTaskFromCache s id) ≠ [] :=
        List.ne_nil_of_mem hmem
      simpa using hnn
    rw [if_neg hb, if_neg htasks]
    exact hInv

/-- `getTask` preserves the invariant and any returned record is a
well-keyed member of the resulting cache. -/
theorem inv_getTask {s : ServiceState} (db : List Task) (hdb : dbWf db)
    (hInv : CacheInv s) (id : String) :
    CacheInv (getTask db s id).2 ∧
      ∀ ex, (getTask db s id).1 = some ex →
        ex.id = id ∧ (getTask db s id).2.taskMap ex.id = some ex := by
  unfold getTask
  rcases hc : getTaskFromCache s id with _ | t
  · rcases hd : dbFind db id with _ | t
    · exact ⟨hInv, by intro ex hex; cases hex⟩
    · -- cache miss, store hit: hydrate the row
      have htid : t.id = id := by
        have := List.find?_some hd
        simpa using this
      have htmem : t ∈ db := List.mem_of_find?_eq_some hd
      have htne : t.id ≠ "" := hdb.2 t htmem
      have hnotboard : id ∉ s.board := by
        intro hb
        obtain ⟨t0, ht0⟩ := cacheHit_of_mem_board hInv hb
        rw [hc] at ht0
        cases ht0
      have hfresh : ∀ c, t.id ∉ s.cols c := by
        intro c hmem
        exact hnotboard (htid ▸ hInv.colsSub c t.id hmem)
      refine ⟨inv_cacheTask hInv htne (fun c hmem => absurd hmem (hfresh c)), ?_⟩
      intro ex hex
      cases hex
      exact ⟨htid, cacheTask_taskMap_self s t⟩
  · -- cache hit: pure read
    obtain ⟨hmap, hne⟩ := getTaskFromCache_eq_some.mp hc
    obtain ⟨htid, _, _, _⟩ := inv_lookup hInv hmap
    refine ⟨hInv, ?_⟩
    intro ex hex
    cases hex
    exact ⟨htid, htid ▸ hmap⟩

/-- Column-set membership through `cacheTask`. -/
theorem mem_cols_cacheTask {s : ServiceState} {t : Task} {c : ColumnId}
    {id : String} :
    id ∈ (cacheTask s t).cols c ↔
      id ∈ s.cols c ∨ (id = t.id ∧ c = t.columnId) := by
  show id ∈ (if c = t.columnId then sadd (s.cols c) t.id else s.cols c) ↔ _
  by_cases hc : c = t.columnId
  · rw [if_pos hc, mem_sadd]
    constructor
    · rintro (h | h) <;> [exact Or.inl h; exact Or.inr ⟨h, hc⟩]
    · rintro (h | ⟨h, _⟩) <;> [exact Or.inl h; exact Or.inr h]
  · rw [if_neg hc]
    constructor
    · exact Or.inl
    · rintro (h | ⟨_, h⟩) <;> [exact h; exact absurd h hc]

/-- Hash-map lookup through `cacheTask`. -/
theorem taskMap_cacheTask {s : ServiceState} {t : Task} {id : String} :
    (cacheTask s t).taskMap id = if id = t.id then some t else s.taskMap id :=
  rfl

/-- Board membership through `cacheTask`. -/
theorem mem_board_cacheTask {s : ServiceState} {t : Task} {id : String} :
    id ∈ (cacheTask s t).board ↔ id ∈ s.board ∨ id = t.id :=
  mem_sadd

/-- `cacheTask` after a conditional old-column `SREM` (the write phase of a
move) preserves the invariant as long as the written record inherits the id
of the record currently stored under that key. -/
theorem inv_moveTaskWrite {s : ServiceState} (hInv : CacheInv s)
    {ex t' : Task} (hmap : s.taskMap ex.id = some ex) (hid : t'.id = ex.id) :
    CacheInv (moveTaskWrite s ex t') := by
  obtain ⟨_, hexb, hexne, hiff⟩ := inv_lookup hInv hmap
  have hne' : t'.id ≠ "" := hid ▸ hexne
  by_cases hcc : ex.columnId ≠ t'.columnId
  · -- column change: SREM from the old column set, then cache the record
    unfold moveTaskWrite
    rw [if_pos hcc]
    set s2 : ServiceState :=
      { s with cols := fun c =>
          if c = ex.columnId then srem (s.cols c) ex.id else s.cols c }
      with hs2
    have hmem2 : ∀ c id, id ∈ s2.cols c ↔
        (id ∈ s.cols c ∧ ¬(c = ex.columnId ∧ id = ex.id)) := by
      intro c id
      show id ∈ (if c = ex.columnId then srem (s.cols c) ex.id else s.cols c) ↔ _
      by_cases hc : c = ex.columnId
      · rw [if_pos hc, mem_srem]
        constructor
        · rintro ⟨h1, h2⟩
          exact ⟨h1, fun hx => h2 hx.2⟩
        · rintro ⟨h1, h2⟩
          exact ⟨h1, fun hx => h2 ⟨hc, hx⟩⟩
      · rw [if_neg hc]
        constructor
        · intro h1
          exact ⟨h1, fun hx => hc hx.1⟩
        · exact And.left
    apply inv_enqueue
    refine ⟨?_, ?_, ?_⟩
    · intro c id hm
      rw [mem_cols_cacheTask] at hm
      rw [mem_board_cacheTask]
      rcases hm with hm | ⟨rfl, _⟩
      · exact Or.inl (hInv.colsSub c id ((hmem2 c id).mp hm).1)
      · exact Or.inr rfl
    · intro id hm
      rw [taskMap_cacheTask] at hm
      rw [mem_board_cacheTask]
      by_cases hit : id = t'.id
      · exact Or.inr hit
      · rw [if_neg hit] at hm
        exact Or.inl (hInv.keysSub id hm)
    · intro id hidb
      rw [mem_board_cacheTask] at hidb
      by_cases hit : id = t'.id
      · subst hit
        refine ⟨hne', t', ?_, rfl, ?_⟩
        · rw [taskMap_cacheTask, if_pos rfl]
        · intro c
          rw [mem_cols_cacheTask, hmem2 c t'.id]
          constructor
          · rintro (⟨h1, h2⟩ | ⟨_, h3⟩)
            · rw [hid] at h1
              exact absurd ⟨(hiff c).mp h1, hid⟩ h2
            · exact h3
          · intro hc
            exact Or.inr ⟨rfl, hc⟩
      · have hidb' : id ∈ s.board := by
          rcases hidb with h | h <;> [exact h; exact absurd h hit]
        obtain ⟨hne0, t0, ht0, hid0, hcols0⟩ := hInv.boardOk id hidb'
        refine ⟨hne0, t0, ?_, hid0, ?_⟩
        · rw [taskMap_cacheTask, if_neg hit]
          exact ht0
        · intro c
          rw [mem_cols_cacheTask, hmem2 c id]
          constructor
          · rintro (⟨h1, _⟩ | ⟨h2, _⟩)
            · exact (hcols0 c).mp h1
            · exact absurd h2 hit
          · intro hc
            refine Or.inl ⟨(hcols0 c).mpr hc, ?_⟩
            rintro ⟨_, rfl⟩
            exact hit (hid.symm ▸ hid0.symm ▸ rfl)
  · -- same column: a plain cache write
    unfold moveTaskWrite
    rw [if_neg hcc]
    apply inv_enqueue
    refine inv_cacheTask hInv hne' ?_
    intro c hm
    rw [hid] at hm
    have hc := (hiff c).mp hm
    rw [not_not] at hcc
    rw [hc, hcc]

/-- The neighbour-inspection phase only reads (possibly warming the cache)
and enqueues: the invariant passes through. -/
theorem inv_moveTaskRebalanceCheck {s : ServiceState} (db : List Task)
    (hdb : dbWf db) (hInv : CacheInv s) (t' : Task) :
    CacheInv (moveTaskRebalanceCheck db s t') := by
  simp only [moveTaskRebalanceCheck]
  split
  · exact inv_enqueue (inv_getAllTasks db hdb hInv) _
  · exact inv_getAllTasks db hdb hInv

/-- A key with no hash sits in no column set. -/
theorem fresh_notCols {s : ServiceState} (hInv : CacheInv s) {x : String}
    (hx : s.taskMap x = none) : ∀ c, x ∉ s.cols c := by
  intro c hmem
  have hb := hInv.colsSub c x hmem
  obtain ⟨_, t, ht, _, _⟩ := hInv.boardOk x hb
  rw [hx] at ht
  cases ht

/-- Warming only ever adds the warmed rows' ids to column sets. -/
theorem mem_cols_foldl :
    ∀ (rows : List Task) (s : ServiceState) (c : ColumnId) (x : String),
      x ∈ ((rows.foldl cacheTask s).cols c) →
      x ∈ s.cols c ∨ x ∈ rows.map Task.id := by
  intro rows
  induction rows with
  | nil => intro s c x h; exact Or.inl h
  | cons r rest ih =>
    intro s c x h
    rcases ih (cacheTask s r) c x h with h1 | h2
    · rw [mem_cols_cacheTask] at h1
      rcases h1 with h1 | ⟨rfl, _⟩
      · exact Or.inl h1
      · exact Or.inr (List.mem_cons_self _ _)
    · exact Or.inr (List.mem_cons_of_mem _ h2)

/-- A globally fresh id (no hash, no store row) is in no column set after
`getAllTasks`, whichever branch ran. -/
theorem getAllTasks_fresh (db : List Task) {s : ServiceState}
    (hInv : CacheInv s) {x : String} (hx : s.taskMap x = none)
    (hdbx : dbFind db x = none) :
    ∀ c, x ∉ ((getAllTasks db s).2).cols c := by
  have hcold : ∀ c, x ∉ (((sortByOrder db).foldl cacheTask s).cols c) := by
    intro c hmem
    rcases mem_cols_foldl (sortByOrder db) s c x hmem with h | h
    · exact fresh_notCols hInv hx c h
    · obtain ⟨t, ht, htx⟩ := List.mem_map.mp h
      have htdb : t ∈ db := (sortByOrder_perm db).mem_iff.mp ht
      have hnf := List.find?_eq_none.mp hdbx t htdb
      simp only [decide_eq_true_eq] at hnf
      exact hnf htx
  intro c hmem
  unfold getAllTasks at hmem
  by_cases hb : s.board.isEmpty = true
  · rw [if_pos hb] at hmem
    exact hcold c hmem
  · rw [if_neg hb] at hmem
    by_cases ht2 : ((s.board.filterMap
        (fun id => getTaskFromCache s id)).isEmpty = true)
    · rw [if_pos ht2] at hmem
      exact hcold c hmem
    · rw [if_neg ht2] at hmem
      exact fresh_notCols hInv hx c hmem

/-- `createTask` with a globally fresh id preserves the invariant. -/
theorem inv_createTask (db : List Task) (hdb : dbWf db) {s : ServiceState}
    (hInv : CacheInv s) (p : CreateTaskPayload) (now : String)
    (hfresh : s.taskMap p.id = none) (hdbf : dbFind db p.id = none)
    (hne : p.id ≠ "") : CacheInv (createTask db s p now).2 := by
  have hInv1 : CacheInv (getAllTasks db s).2 := inv_getAllTasks db hdb hInv
  have hfresh1 : ∀ c, p.id ∉ ((getAllTasks db s).2).cols c :=
    getAllTasks_fresh db hInv hfresh hdbf
  show CacheInv (createTask db s p now).2
  simp only [createTask]
  rcases ho : orderBetween ((sortByOrder ((getAllTasks db s).1.filter
      (fun t => t.columnId = p.columnId))).getLast?.map Task.order) none
    with e | ord
  · exact hInv1
  · exact inv_enqueue (inv_cacheTask hInv1 hne
      (fun c hm => absurd hm (hfresh1 c))) _

/-- `updateTask` preserves the invariant. -/
theorem inv_updateTask (db : List Task) (hdb : dbWf db) {s : ServiceState}
    (hInv : CacheInv s) (p : UpdateTaskPayload) (now : String) :
    CacheInv (updateTask db s p now).2 := by
  have hg0 := inv_getTask db hdb hInv p.id
  unfold updateTask
  rcases hg : getTask db s p.id with ⟨_ | ex, s1⟩ <;> rw [hg] at hg0
  · exact hg0.1
  · have hInv1 : CacheInv s1 := hg0.1
    obtain ⟨hexid, hmap1⟩ := hg0.2 ex rfl
    have hmap1' : s1.taskMap ex.id = some ex := hmap1
    obtain ⟨_, _, hexne, hiff⟩ := inv_lookup hInv1 hmap1'
    exact inv_enqueue (@inv_cacheTask s1 hInv1 (applyUpdate ex p now) hexne
      (fun c hm => (hiff c).mp hm)) _

/-- `moveTask` preserves the invariant. -/
theorem inv_moveTask (db : List Task) (hdb : dbWf db) {s : ServiceState}
    (hInv : CacheInv s) (p : MoveTaskPayload) (now : String) :
    CacheInv (moveTask db s p now).2 := by
  have hg0 := inv_getTask db hdb hInv p.id
  unfold moveTask
  rcases hg : getTask db s p.id with ⟨_ | ex, s1⟩ <;> rw [hg] at hg0
  · exact hg0.1
  · have hInv1 : CacheInv s1 := hg0.1
    obtain ⟨hexid, hmap1⟩ := hg0.2 ex rfl
    have hmap1' : s1.taskMap ex.id = some ex := hmap1
    exact inv_moveTaskRebalanceCheck db hdb
      (@inv_moveTaskWrite s1 hInv1 ex (applyMove ex p now) hmap1' rfl) _

/-- `deleteTask` preserves the invariant. -/
theorem inv_deleteTask (db : List Task) (hdb : dbWf db) {s : ServiceState}
    (hInv : CacheInv s) (p : DeleteTaskPayload) :
    CacheInv (deleteTask db s p).2 := by
  have hg0 := inv_getTask db hdb hInv p.id
  unfold deleteTask
  rcases hg : getTask db s p.id with ⟨_ | ex, s1⟩ <;> rw [hg] at hg0
  · exact hg0.1
  · have hInv1 : CacheInv s1 := hg0.1
    obtain ⟨hexid, hmap1⟩ := hg0.2 ex rfl
    have hmap1' : s1.taskMap ex.id = some ex := hmap1
    obtain ⟨_, _, hexne, hiff⟩ := inv_lookup hInv1 hmap1'
    apply inv_enqueue
    have hmem2 : ∀ c id,
        id ∈ (if c = ex.columnId then srem (s1.cols c) ex.id
          else s1.cols c : List String) ↔
        (id ∈ s1.cols c ∧ ¬(c = ex.columnId ∧ id = ex.id)) := by
      intro c id
      by_cases hc : c = ex.columnId
      · rw [if_pos hc, mem_srem]
        constructor
        · rintro ⟨h1, h2⟩
          exact ⟨h1, fun hx => h2 hx.2⟩
        · rintro ⟨h1, h2⟩
          exact ⟨h1, fun hx => h2 ⟨hc, hx⟩⟩
      · rw [if_neg hc]
        constructor
        · intro h1
          exact ⟨h1, fun hx => hc hx.1⟩
        · exact And.left
    refine ⟨?_, ?_, ?_⟩
    · intro c id hm
      have hm' := (hmem2 c id).mp hm
      show id ∈ srem s1.board ex.id
      rw [mem_srem]
      refine ⟨hInv1.colsSub c id hm'.1, ?_⟩
      rintro rfl
      exact hm'.2 ⟨(hiff c).mp hm'.1, rfl⟩
    · intro id hm
      show id ∈ srem s1.board ex.id
      rw [mem_srem]
      change (if id = ex.id then none else s1.taskMap id) ≠ none at hm
      by_cases hit : id = ex.id
      · rw [if_pos hit] at hm
        exact absurd rfl hm
      · rw [if_neg hit] at hm
        exact ⟨hInv1.keysSub id hm, hit⟩
    · intro id hidb
      have hidb' := mem_srem.mp hidb
      obtain ⟨hne0, t0, ht0, hid0, hcols0⟩ := hInv1.boardOk id hidb'.1
      refine ⟨hne0, t0, ?_, hid0, ?_⟩
      · show (if id = ex.id then none else s1.taskMap id) = some t0
        rw [if_neg hidb'.2]
        exact ht0
      · intro c
        rw [hmem2 c id]
        constructor
        · rintro ⟨h1, _⟩
          exact (hcols0 c).mp h1
        · intro hc
          exact ⟨(hcols0 c).mpr hc, fun hx => hidb'.2 hx.2⟩

/-- Every well-formed operation preserves the invariant. -/
theorem inv_applyOp (db : List Task) (hdb : dbWf db) {s : ServiceState}
    (hInv : CacheInv s) (op : BoardOp) (hok : opOk db s op) :
    CacheInv (applyOp db s op) := by
  cases op with
  | create p now =>
    obtain ⟨h1, h2, h3⟩ := hok
    exact inv_createTask db hdb hInv p now h1 h2 h3
  | update p now => exact inv_updateTask db hdb hInv p now
  | move p now => exact inv_moveTask db hdb hInv p now
  | delete p => exact inv_deleteTask db hdb hInv p

/-- The invariant holds along any fresh trace. -/
theorem inv_runOps (db : List Task) (hdb : dbWf db) :
    ∀ (ops : List BoardOp) (s : ServiceState), CacheInv s →
      freshRun db s ops = true → CacheInv (runOps db s ops) := by
  intro ops
  induction ops with
  | nil => intro s h _; exact h
  | cons op rest ih =>
    intro s hInv hfr
    unfold freshRun at hfr
    rw [Bool.and_eq_true] at hfr
    obtain ⟨h1, h2⟩ := hfr
    exact ih _ (inv_applyOp db hdb hInv op (of_decide_eq_true h1)) h2

/-- The empty cache satisfies the invariant. -/
theorem inv_initial : CacheInv initialState := by
  refine ⟨?_, ?_, ?_⟩
  · intro c id hid
    cases hid
  · intro id h
    exact absurd rfl h
  · intro id hid
    cases hid

/-- C9: after any trace of completed operations from the empty cache (with
fresh client-generated ids on creates and a primary-keyed durable store),
every id in `board:tasks` lies in *exactly one* per-column set — the set of
its task's current `columnId` — and an id absent from `board:tasks` lies in
no column set. -/
theorem C9_column_sets_invariant (db : List Task) (ops : List BoardOp)
    (hdb : dbWf db) (hfresh : freshRun db initialState ops = true) :
    (∀ id ∈ (runOps db initialState ops).board,
      ∃! c : ColumnId, id ∈ (runOps db initialState ops).cols c) ∧
    (∀ id ∈ (runOps db initialState ops).board, ∀ t,
      (runOps db initialState ops).taskMap id = some t →
        id ∈ (runOps db initialState ops).cols t.columnId) ∧
    (∀ id, id ∉ (runOps db initialState ops).board →
      ∀ c, id ∉ (runOps db initialState ops).cols c) := by
  have hInv := inv_runOps db hdb ops initialState inv_initial hfresh
  refine ⟨?_, ?_, ?_⟩
  · intro id hid
    obtain ⟨_, t, _, _, hcols⟩ := hInv.boardOk id hid
    exact ⟨t.columnId, (hcols t.columnId).mpr rfl, fun c hc => (hcols c).mp hc⟩
  · intro id hid t ht
    obtain ⟨_, t0, ht0, _, hcols⟩ := hInv.boardOk id hid
    rw [ht] at ht0
    cases ht0
    exact (hcols _).mpr rfl
  · intro id hid c hmem
    exact hid (hInv.colsSub c id hmem)

instance (db : List Task) : Decidable (dbWf db) := by
  unfold dbWf
  infer_instance

/-- Payload: create `a` in todo. -/
def createPayloadA : CreateTaskPayload :=
  { id := "a", columnId := .todo, title := "A", description := none,
    creatorName := none, creatorColor := none,
    updatedByName := none, updatedByColor := none }

/-- Payload: move `a` to done at order 4. -/
def movePayloadA : MoveTaskPayload :=
  { id := "a", columnId := .done, order := 4, version := 1,
    updatedByName := none, updatedByColor := none }

/-- Payload: create `b` in todo. -/
def createPayloadB : CreateTaskPayload :=
  { id := "b", columnId := .todo, title := "B", description := none,
    creatorName := none, creatorColor := none,
    updatedByName := none, updatedByColor := none }

/-- A concrete trace: create `a` in todo, move it to done, create `b` in
todo, delete `a`. -/
def opsC9 : List BoardOp :=
  [ .create createPayloadA "t0", .move movePayloadA "t1",
    .create createPayloadB "t2", .delete { id := "a" } ]

/-- C9 witness: the hypotheses hold on the concrete trace and the invariant
follows by the theorem. -/
theorem C9_witness :
    dbWf [] ∧ freshRun [] initialState opsC9 = true ∧
    (∀ id ∈ (runOps [] initialState opsC9).board,
      ∃! c : ColumnId, id ∈ (runOps [] initialState opsC9).cols c) := by
  refine ⟨by decide, by with_unfolding_all decide, ?_⟩
  exact (C9_column_sets_invariant [] opsC9 (by decide)
    (by with_unfolding_all decide)).1

/-! ## jobs/dbFlushWorker.ts — the flush worker

The durable store is the `List Task` of rows already used above; worker
handlers operate on it and (for rebalance) write back into the cache. -/

/-- Supabase `upsert(..., onConflict - id)`: replace the row with the same
primary key, else append. -/
def dbUpsert (db : List Task) (t : Task) : List Task :=
  if db.any (fun r => r.id = t.id) then
    db.map (fun r => if r.id = t.id then t else r)
  else db ++ [t]

/-- `handleUpsert(task)` from `jobs/dbFlushWorker.ts`: upserts the task
carried in the *job payload* into the durable store.  (The file's header
comment claims the worker reads the task state at run time; the code writes
`payload.task`, the enqueue-time snapshot.) -/
def handleUpsert (db : List Task) (task : Task) : List Task :=
  dbUpsert db task

/-- `handleDelete(taskId)` from `jobs/dbFlushWorker.ts`. -/
def handleDelete (db : List Task) (taskId : String) : List Task :=
  db.filter (fun r => r.id ≠ taskId)

/-- `handleRebalance(columnId)` from `jobs/dbFlushWorker.ts`: reads the
column's rows from the durable store sorted by `order`, assigns
`rebalancedOrders`, bulk-upserts the store, then `HSET`s the new `order`
into each task hash in the cache.  (An `HSET` on a missing hash would create
an id-less partial hash, which every read treats as absent; it is modelled
as no write.) -/
def rebalHset (tm : String → Option Task) (updates : List (Task × ℚ)) :
    String → Option Task :=
  fun id =>
    match tm id, updates.find? (fun u => u.1.id = id) with
    | some t, some u => some { t with order := u.2 }
    | some t, none => some t
    | none, _ => none

def handleRebalance (db : List Task) (s : ServiceState) (columnId : ColumnId)
    (now : String) : List Task × ServiceState :=
  let rows := sortByOrder (db.filter (fun r => r.columnId = columnId))
  if rows.isEmpty then (db, s)
  else
    let updates := rows.zip (rebalancedOrders rows.length)
    let db2 := updates.foldl
      (fun d u => dbUpsert d { u.1 with order := u.2, updatedAt := now }) db
    (db2, { s with taskMap := rebalHset s.taskMap updates })

/-- One worker execution of a due job (`startDbFlushWorker`'s dispatch on
`payload.operation`): the job leaves the queue and its handler runs. -/
def executeJob (db : List Task) (s : ServiceState) (jobId : String)
    (now : String) : List Task × ServiceState :=
  match s.queue jobId with
  | none => (db, s)
  | some p =>
    let s1 := { s with queue := fun j => if j = jobId then none else s.queue j }
    match p with
    | .upsert task => (handleUpsert db task, s1)
    | .delete tid => (handleDelete db tid, s1)
    | .rebalance c => handleRebalance db s1 c now

/-! ## Claim C1 — does the upsert job read the current cache state?

The claim: when an upsert flush job executes, it reads the *current* cache
state for its task id (not the enqueue-time snapshot) and upserts that; so
after any sequence of cache mutations followed by one job execution the
durable row equals the cache state at execution time.

The code's own header comment says exactly this ("The worker reads the task
state at the time it runs, so we always write the latest version, not the
version at enqueue time"), but `handleUpsert` receives `payload.task` — the
snapshot stored in the job at its last enqueue — and never touches the
cache.  Whenever the cache changes after the last enqueue without a fresh
enqueue (the rebalance handler's own `HSET` of new orders is precisely such
a mutation), the executed upsert writes the stale snapshot and the durable
row diverges from the cache.  The code contradicts its own documentation:
recorded as a code bug. -/

/-- The C1 durable store: tasks `a` (order 1) and `b` (order 2), column
todo, already flushed. -/
def dbC1 : List Task := [mkTask "a" .todo 1, mkTask "b" .todo 2]

/-- The C1 title edit of `a` (its upsert snapshot has order 1). -/
def updPayloadC1 : UpdateTaskPayload :=
  { id := "a", title := some "A2", description := none, version := 2,
    updatedByName := none, updatedByColor := none }

/-- The C1 cache after the edit, with an upsert job for `a` (snapshot order
1) and a rebalance job for todo pending (as `moveTask` enqueues on a
near-collision). -/
def stateC1 : ServiceState :=
  enqueueDatabaseFlush
    (updateTask dbC1
      (cacheTask (cacheTask initialState (mkTask "a" .todo 1))
        (mkTask "b" .todo 2))
      updPayloadC1 "t1").2
    (.rebalance .todo)

/-- C1 execution, first due job: the rebalance (rewrites `a`'s order to 1000
in both store and cache). -/
def runC1a : List Task × ServiceState :=
  executeJob dbC1 stateC1 "rebalance_todo" "t2"

/-- C1 execution, second due job: the pending upsert for `a`. -/
def runC1b : List Task × ServiceState :=
  executeJob runC1a.1 runC1a.2 "task_a" "t3"

set_option maxRecDepth 4000 in
/-- C1 failing-input evaluation: the pending upsert job holds the
enqueue-time snapshot (order 1, third conjunct).  After the rebalance has
mutated the cache (order 1000) and the upsert job then executes, the durable
row reverts to the snapshot's order 1 (first conjunct) while the cache holds
order 1000 (second conjunct): the durable row does *not* equal the cache
state at execution time, because `handleUpsert` writes `payload.task`
instead of reading the cache. -/
theorem C1_code_eval :
    (dbFind runC1b.1 "a").map Task.order = some 1 ∧
    (runC1b.2.taskMap "a").map Task.order = some 1000 ∧
    stateC1.queue "task_a" =
      some (.upsert (applyUpdate (mkTask "a" .todo 1) updPayloadC1 "t1")) := by
  refine ⟨?_, ?_, ?_⟩ <;> with_unfolding_all decide

/-! ## services/conflictService.ts — the advisory move lock -/

/-- `SERVER_ID` from `services/conflictService.ts`:
`server:{process.pid}` — one constant per server process. -/
def SERVER_ID (pid : ℕ) : String :=
  "server:" ++ toString pid

/-- The Redis lock key space `task:{id}:lock` with stored owner strings. -/
def LockState : Type := String → Option String

/-- `AcquireResult` from `services/conflictService.ts`. -/
structure AcquireResult : Type where
  acquired : Bool
  resolvedState : Option Task
deriving DecidableEq

/-- `acquireMoveLock(taskId, currentTask)`: `SET key SERVER_ID PX 2000 NX`.
On success the lock stores this process's `SERVER_ID`; on failure the caller
is the loser and gets its *own supplied snapshot* back as `resolvedState`. -/
def acquireMoveLock (pid : ℕ) (locks : LockState) (taskId : String)
    (currentTask : Task) : AcquireResult × LockState :=
  match locks taskId with
  | none =>
    ({ acquired := true, resolvedState := none },
      fun k => if k = taskId then some (SERVER_ID pid) else locks k)
  | some _ =>
    ({ acquired := false, resolvedState := some currentTask }, locks)

/-- `releaseMoveLock(taskId)`: the Lua compare-and-delete — the key is
deleted only when its stored value equals this process's `SERVER_ID`. -/
def releaseMoveLock (pid : ℕ) (locks : LockState) (taskId : String) :
    LockState :=
  match locks taskId with
  | some owner =>
    if owner = SERVER_ID pid then
      (fun k => if k = taskId then none else locks k)
    else locks
  | none => locks

/-! ## Claim C10 — lock ownership is per process, not per request

The claim: every lock acquired by `acquireMoveLock` within one server
process stores the same owner value `server:<pid>`; any
`releaseMoveLock(taskId)` from that process therefore deletes a lock held
with that owner — release is verified against the process identifier, not
the particular acquiring request — while a lock stored with any other owner
value is left in place. -/

/-- C10: (1) a successful acquire stores `server:<pid>` whatever the request
context (`currentTask`) was; (2) release from the same process deletes any
lock whose owner is `server:<pid>`, regardless of which request stored it;
(3) release leaves a lock with a different owner untouched. -/
theorem C10_release_by_process (pid : ℕ) (locks : LockState) (tid : String) :
    (∀ cur : Task, locks tid = none →
      (acquireMoveLock pid locks tid cur).1.acquired = true ∧
      (acquireMoveLock pid locks tid cur).2 tid = some (SERVER_ID pid)) ∧
    (locks tid = some (SERVER_ID pid) →
      releaseMoveLock pid locks tid tid = none) ∧
    (∀ o, locks tid = some o → o ≠ SERVER_ID pid →
      releaseMoveLock pid locks tid = locks) := by
  refine ⟨?_, ?_, ?_⟩
  · intro cur hfree
    unfold acquireMoveLock
    rw [hfree]
    refine ⟨rfl, ?_⟩
    show (if tid = tid then some (SERVER_ID pid) else locks tid)
      = some (SERVER_ID pid)
    rw [if_pos rfl]
  · intro hheld
    unfold releaseMoveLock
    rw [hheld]
    show (if SERVER_ID pid = SERVER_ID pid then
      (fun k => if k = tid then none else locks k) else locks) tid = none
    rw [if_pos rfl]
    show (if tid = tid then none else locks tid) = none
    rw [if_pos rfl]
  · intro o hheld hne
    unfold releaseMoveLock
    rw [hheld]
    show (if o = SERVER_ID pid then
      (fun k => if k = tid then none else locks k) else locks) = locks
    rw [if_neg hne]

/-- C10 witness: process 7 acquires the free lock for task `a` (storing
`server:7`), a same-process release deletes it, and a foreign owner
(`server:9`) survives a release from process 7. -/
theorem C10_witness :
    ((fun _ => none : LockState) "a" = none ∧
      (acquireMoveLock 7 (fun _ => none) "a" (mkTask "a" .todo 1)).2 "a"
        = some (SERVER_ID 7)) ∧
    releaseMoveLock 7
      (fun k => if k = "a" then some (SERVER_ID 7) else none) "a" "a"
      = none ∧
    releaseMoveLock 7
      (fun k => if k = "a" then some (SERVER_ID 9) else none) "a"
      = (fun k => if k = "a" then some (SERVER_ID 9) else none) := by
  refine ⟨⟨rfl, ?_⟩, ?_, ?_⟩
  · exact ((C10_release_by_process 7 (fun _ => none) "a").1
      (mkTask "a" .todo 1) rfl).2
  · exact (C10_release_by_process 7
      (fun k => if k = "a" then some (SERVER_ID 7) else none) "a").2.1
      (by with_unfolding_all rfl)
  · exact (C10_release_by_process 7
      (fun k => if k = "a" then some (SERVER_ID 9) else none) "a").2.2
      (SERVER_ID 9) (by with_unfolding_all rfl) (by with_unfolding_all decide)

/-! ## Claim C2 — concurrent `TASK_MOVE` × `TASK_MOVE`

`ws/handlers/task.handler.ts`, `handleTaskMove`: fetch the current task
(`getAllTasks().find`), acquire the per-task lock, and either apply the move
(broadcast `TASK_MOVED`, release the lock in a `finally`) or — as the loser —
privately receive `CONFLICT_NOTIFY` built from `lockResult.resolvedState`,
which `acquireMoveLock` set to the *caller's own pre-acquire snapshot*
(`currentTask`), not to the winner's post-move state.

Two concurrent movers A and B are modelled as interleaved atomic phases,
one per shared-state access of the handler separated by an `await`:
fetch (`getAllTasks`), acquire (`acquireMoveLock`), apply (`moveTask`, with
the mover-private `TASK_MOVED` emit), and release (`releaseMoveLock`, the
`finally`).  The release is a phase of its own because the source awaits
between `moveTask`'s cache write and the `finally`: a concurrent loser can
fetch the *post-move* state and then lose the acquire before the lock is
released.  The loser returns before the `try`, so it never releases.  A
schedule is a list of Bools naming which mover runs its next phase. -/

/-- Local state of one in-flight `handleTaskMove` call.  `pc`: 0 = about to
fetch, 1 = fetched, 2 = holding the lock, 3 = applied (release pending),
4 = finished.  `conflicts` holds
the `resolvedState`s of privately received `CONFLICT_NOTIFY`s; `errors` the
privately received `ERROR` codes. -/
structure MoverState : Type where
  pc : ℕ
  snap : Option Task
  acquired : Bool
  failed : Bool
  conflicts : List Task
  errors : List String
deriving DecidableEq

/-- The global system: the cache, the Redis lock keys, both movers, and the
`TASK_MOVED` broadcast log. -/
structure MoveSys : Type where
  svc : ServiceState
  locks : LockState
  a : MoverState
  b : MoverState
  broadcasts : List Task

/-- Mover after a successful fetch. -/
def moverFetchOk (m : MoverState) (cur : Task) : MoverState :=
  { m with pc := 1, snap := some cur }

/-- Mover after a fetch miss (private `NOT_FOUND`; returns before the lock,
so no release). -/
def moverFetchMiss (m : MoverState) : MoverState :=
  { m with pc := 4, errors := m.errors ++ ["NOT_FOUND"] }

/-- Mover that won the lock. -/
def moverAcquired (m : MoverState) : MoverState :=
  { m with pc := 2, acquired := true }

/-- Mover that lost the lock race: a private `CONFLICT_NOTIFY` whose
`resolvedState` is the mover's own snapshot; it returns before the `try`,
so it never reaches the `finally` release. -/
def moverConflicted (m : MoverState) (cur : Task) : MoverState :=
  { m with pc := 4, failed := true, conflicts := m.conflicts ++ [cur] }

/-- Mover whose move was applied and broadcast; the `finally` release is
still pending. -/
def moverApplied (m : MoverState) : MoverState :=
  { m with pc := 3 }

/-- Mover whose `moveTask` failed (private error code); the `finally`
release is still pending. -/
def moverErred (m : MoverState) (c : String) : MoverState :=
  { m with pc := 3, errors := m.errors ++ [c] }

/-- Mover after its `finally { releaseMoveLock }`. -/
def moverReleased (m : MoverState) : MoverState :=
  { m with pc := 4 }

/-- One atomic phase of `handleTaskMove` for one mover, faithful to the
handler: fetch (with private `NOT_FOUND` on a miss), acquire (private
`CONFLICT_NOTIFY` carrying the mover's own snapshot on failure),
apply+broadcast (`moveTask`, one service call, then the emit — which
touches no state the other mover reads), and the `finally` release as a
separate phase, since the source awaits between `moveTask`'s cache write
and the release. -/
def handleTaskMoveStep (db : List Task) (pid : ℕ) (p : MoveTaskPayload)
    (now : String) (svc : ServiceState) (locks : LockState)
    (broadcasts : List Task) (m : MoverState) :
    ServiceState × LockState × List Task × MoverState :=
  if m.pc = 0 then
    let all := (getAllTasks db svc).1
    let svc2 := (getAllTasks db svc).2
    match all.find? (fun t => t.id = p.id) with
    | none => (svc2, locks, broadcasts, moverFetchMiss m)
    | some cur => (svc2, locks, broadcasts, moverFetchOk m cur)
  else if m.pc = 1 then
    match m.snap with
    | none => (svc, locks, broadcasts, moverApplied m)
    | some cur =>
      let res := acquireMoveLock pid locks p.id cur
      if res.1.acquired then
        (svc, res.2, broadcasts, moverAcquired m)
      else
        (svc, res.2, broadcasts, moverConflicted m cur)
  else if m.pc = 2 then
    let r := moveTask db svc p now
    match r.1 with
    | .ok rec => (r.2, locks, broadcasts ++ [rec], moverApplied m)
    | .err c _ => (r.2, locks, broadcasts, moverErred m c)
  else if m.pc = 3 then
    (svc, releaseMoveLock pid locks p.id, broadcasts, moverReleased m)
  else (svc, locks, broadcasts, m)

/-- The two movers' payloads, timestamps and a shared process id. -/
structure MoveEnv : Type where
  db : List Task
  pid : ℕ
  pA : MoveTaskPayload
  pB : MoveTaskPayload
  nowA : String
  nowB : String

/-- Payload of the mover named by a Bool (`false` = A, `true` = B). -/
def envPayload (e : MoveEnv) : Bool → MoveTaskPayload
  | false => e.pA
  | true => e.pB

/-- Timestamp of the mover named by a Bool. -/
def envNow (e : MoveEnv) : Bool → String
  | false => e.nowA
  | true => e.nowB

/-- Mover accessor by name. -/
def mover (sys : MoveSys) : Bool → MoverState
  | false => sys.a
  | true => sys.b

/-- Run one phase of the named mover. -/
def sysStep (e : MoveEnv) (sys : MoveSys) (who : Bool) : MoveSys :=
  match who with
  | false =>
    let r := handleTaskMoveStep e.db e.pid e.pA e.nowA sys.svc sys.locks
      sys.broadcasts sys.a
    { svc := r.1, locks := r.2.1, broadcasts := r.2.2.1, a := r.2.2.2,
      b := sys.b }
  | true =>
    let r := handleTaskMoveStep e.db e.pid e.pB e.nowB sys.svc sys.locks
      sys.broadcasts sys.b
    { svc := r.1, locks := r.2.1, broadcasts := r.2.2.1, a := sys.a,
      b := r.2.2.2 }

/-- Run a schedule of phases. -/
def runMoves (e : MoveEnv) (sys : MoveSys) : List Bool → MoveSys
  | [] => sys
  | w :: rest => runMoves e (sysStep e sys w) rest

/-- A mover that has not started. -/
def initMover : MoverState :=
  { pc := 0, snap := none, acquired := false, failed := false,
    conflicts := [], errors := [] }

/-- The system before any phase has run. -/
def initSys (s0 : ServiceState) : MoveSys :=
  { svc := s0, locks := fun _ => none, a := initMover, b := initMover,
    broadcasts := [] }

/-- In a well-formed cache, the handler's fetch
(`getAllTasks().find(t => t.id === payload.id)`) returns exactly the record
stored under that key. -/
theorem find_in_getAllTasks (db : List Task) {s : ServiceState}
    (hInv : CacheInv s) {q : String} {rec : Task}
    (h : getTaskFromCache s q = some rec) (hqid : rec.id = q) :
    (getAllTasks db s).1.find? (fun t => t.id = q) = some rec ∧
      (getAllTasks db s).2 = s := by
  obtain ⟨hmap, hne⟩ := getTaskFromCache_eq_some.mp h
  have hboard : q ∈ s.board :=
    hInv.keysSub q (by rw [hmap]; exact Option.some_ne_none rec)
  have hwarm := getAllTasks_warm db hboard h
  have hsnd : (getAllTasks db s).2 = s := by rw [hwarm]
  have hfst : (getAllTasks db s).1 =
      sortByOrder (s.board.filterMap (fun id => getTaskFromCache s id)) := by
    rw [hwarm]
  refine ⟨?_, hsnd⟩
  rw [hfst]
  have hmem : rec ∈ sortByOrder
      (s.board.filterMap (fun id => getTaskFromCache s id)) := by
    exact (sortByOrder_perm _).mem_iff.mpr
      (List.mem_filterMap.mpr ⟨q, hboard, h⟩)
  rcases hf : (sortByOrder
      (s.board.filterMap (fun id => getTaskFromCache s id))).find?
      (fun t => t.id = q) with _ | u
  · exfalso
    have := List.find?_eq_none.mp hf rec hmem
    simp only [decide_eq_true_eq] at this
    exact this hqid
  · have hupred := List.find?_some hf
    simp only [decide_eq_true_eq] at hupred
    have humem : u ∈ sortByOrder
        (s.board.filterMap (fun id => getTaskFromCache s id)) :=
      List.mem_of_find?_eq_some hf
    have humem2 : u ∈ s.board.filterMap (fun id => getTaskFromCache s id) :=
      (sortByOrder_perm _).mem_iff.mp humem
    obtain ⟨x, hxb, hxu⟩ := List.mem_filterMap.mp humem2
    obtain ⟨hxmap, hxne⟩ := getTaskFromCache_eq_some.mp hxu
    obtain ⟨hxid, _, _, _⟩ := inv_lookup hInv hxmap
    have hxq : x = q := by rw [← hxid, hupred]
    rw [hxq] at hxmap
    rw [hmap] at hxmap
    cases hxmap
    exact hf

/-- The C2 board: one task `t`, version 1, in todo. -/
def taskC2 : Task := mkTask "t" .todo 1

/-- Mover A's payload: `t` → done at order 2. -/
def movePayloadC2A : MoveTaskPayload :=
  { id := "t", columnId := .done, order := 2, version := 1,
    updatedByName := none, updatedByColor := none }

/-- Mover B's payload: `t` → in-progress at order 3. -/
def movePayloadC2B : MoveTaskPayload :=
  { id := "t", columnId := .inProgress, order := 3, version := 1,
    updatedByName := none, updatedByColor := none }

/-- The C2 environment: movers A (`t` → done) and B (`t` → in-progress)
race in one server process. -/
def envC2 : MoveEnv :=
  { db := [], pid := 1, pA := movePayloadC2A, pB := movePayloadC2B,
    nowA := "n1", nowB := "n2" }

/-- C2 counterexample: in the interleaving A-fetch, B-fetch, A-acquire,
B-acquire, A-apply, A-release, mover B loses the lock race and its private
`CONFLICT_NOTIFY` carries `resolvedState.version = 1` — B's own pre-acquire
snapshot — while the winner's broadcast (and authoritative post-move state)
has version 2.  `resolvedState.version = winner.version` is false: the code
returns the loser's stale snapshot, not the winner's post-move state. -/
theorem C2_counterexample :
    (runMoves envC2 (initSys (cacheTask initialState taskC2))
      [false, true, false, true, false, false]).b.failed = true ∧
    ((runMoves envC2 (initSys (cacheTask initialState taskC2))
      [false, true, false, true, false, false]).b.conflicts.map Task.version
      = [1]) ∧
    ((runMoves envC2 (initSys (cacheTask initialState taskC2))
      [false, true, false, true, false, false]).broadcasts.map Task.version
      = [2]) ∧
    ((runMoves envC2 (initSys (cacheTask initialState taskC2))
      [false, true, false, true, false, false]).b.errors = []) ∧
    ¬ ((runMoves envC2 (initSys (cacheTask initialState taskC2))
      [false, true, false, true, false, false]).b.conflicts.map Task.version
      = (runMoves envC2 (initSys (cacheTask initialState taskC2))
        [false, true, false, true, false, false]).broadcasts.map Task.version) := by
  refine ⟨?_, ?_, ?_, ?_, ?_⟩ <;> with_unfolding_all decide

/-- The complementary schedule: the loser fetches *after* the winner's
cache write but loses the acquire *before* the `finally` release
(A-fetch, A-acquire, A-apply, B-fetch, B-acquire, A-release).  Its private
`resolvedState` is then the winner's post-move record, version 2 — so the
loser's `resolvedState.version` depends on the interleaving and is not
always the pre-move version either. -/
theorem C2_late_fetch_demo :
    (runMoves envC2 (initSys (cacheTask initialState taskC2))
      [false, false, false, true, true, false]).b.failed = true ∧
    ((runMoves envC2 (initSys (cacheTask initialState taskC2))
      [false, false, false, true, true, false]).b.conflicts.map Task.version
      = [2]) ∧
    ((runMoves envC2 (initSys (cacheTask initialState taskC2))
      [false, false, false, true, true, false]).broadcasts.map Task.version
      = [2]) := by
  refine ⟨?_, ?_, ?_⟩ <;> with_unfolding_all decide

/-! ### The amended general statement

Invariant-based proof that for *every* schedule of the two movers, a mover
that loses the lock race receives exactly one private `CONFLICT_NOTIFY`
and no error code, and its `resolvedState` is its *own fetch-time
snapshot*: either the pre-move state `T` (version `T.version`, when it
fetched before the winner's cache write) or the winner's post-move record
(version `T.version + 1`, when it fetched between that write and the
`finally` release).  Exactly the winner's move is applied and broadcast,
with version `T.version + 1`.  So `resolvedState.version = winner.version`
holds on some schedules and fails on others — the counterexample above —
and neither version is guaranteed. -/

/-- A mover whose `moveTask` committed: it passed the apply phase holding
the lock (release pending at pc 3, done at pc 4). -/
def moverDidApply (m : MoverState) : Prop :=
  (m.pc = 3 ∨ m.pc = 4) ∧ m.acquired = true

/-- The inductive invariant of the two-mover race, relative to the initial
cache `s0` and the initial task record `T`. -/
structure MoveInv (e : MoveEnv) (s0 : ServiceState) (T : Task)
    (sys : MoveSys) : Prop where
  warm : CacheInv sys.svc ∧
    ∃ rec, getTaskFromCache sys.svc e.pA.id = some rec ∧ rec.id = e.pA.id
  lockVal : sys.locks e.pA.id = none ∨
    sys.locks e.pA.id = some (SERVER_ID e.pid)
  lockCS : sys.locks e.pA.id ≠ none ↔
    ∃ w, (mover sys w).pc = 2 ∨ (mover sys w).pc = 3
  noCS2 : ∀ w w', (mover sys w).pc = 2 ∨ (mover sys w).pc = 3 →
    (mover sys w').pc = 2 ∨ (mover sys w').pc = 3 → w' = w
  st0 : ∀ w, (mover sys w).pc = 0 → (mover sys w).acquired = false ∧
    (mover sys w).failed = false
  st1 : ∀ w, (mover sys w).pc = 1 → (mover sys w).acquired = false ∧
    (mover sys w).failed = false ∧ ∃ v, (mover sys w).snap = some v
  st23 : ∀ w, (mover sys w).pc = 2 ∨ (mover sys w).pc = 3 →
    (mover sys w).acquired = true ∧ (mover sys w).failed = false
  errs : ∀ w, (mover sys w).errors = []
  confl : ∀ w, (mover sys w).failed = false → (mover sys w).conflicts = []
  failedSt : ∀ w, (mover sys w).failed = true → (mover sys w).pc = 4 ∧
    (mover sys w).acquired = false ∧
    ((mover sys w).conflicts = [T] ∨
      (mover sys w).conflicts
        = [applyMove T (envPayload e (!w)) (envNow e (!w))]) ∧
    (mover sys (!w)).acquired = true
  snapT : ∀ w, (mover sys w).pc = 1 →
    (mover sys w).snap = some T ∨
    (moverDidApply (mover sys (!w)) ∧
      (mover sys w).snap
        = some (applyMove T (envPayload e (!w)) (envNow e (!w))))
  noApp : (∀ w, ¬ moverDidApply (mover sys w)) →
    sys.svc = s0 ∧ sys.broadcasts = []
  oneApp : ∀ v, moverDidApply (mover sys v) →
    ¬ moverDidApply (mover sys (!v)) →
    sys.svc = (moveTask e.db s0 (envPayload e v) (envNow e v)).2 ∧
    sys.broadcasts = [applyMove T (envPayload e v) (envNow e v)]

/-- Pointwise effect of `sysStep` given the phase outcome. -/
theorem sysStep_facts (e : MoveEnv) (sys : MoveSys) (w : Bool)
    {out : ServiceState × LockState × List Task × MoverState}
    (h : handleTaskMoveStep e.db e.pid (envPayload e w) (envNow e w) sys.svc
      sys.locks sys.broadcasts (mover sys w) = out) :
    (sysStep e sys w).svc = out.1 ∧
    (sysStep e sys w).locks = out.2.1 ∧
    (sysStep e sys w).broadcasts = out.2.2.1 ∧
    mover (sysStep e sys w) w = out.2.2.2 ∧
    mover (sysStep e sys w) (!w) = mover sys (!w) := by
  cases w
  · exact ⟨congrArg (fun x => x.1) h, congrArg (fun x => x.2.1) h,
      congrArg (fun x => x.2.2.1) h, congrArg (fun x => x.2.2.2) h, rfl⟩
  · exact ⟨congrArg (fun x => x.1) h, congrArg (fun x => x.2.1) h,
      congrArg (fun x => x.2.2.1) h, congrArg (fun x => x.2.2.2) h, rfl⟩

/-- A Bool different from `w` is `!w`. -/
theorem bool_other {w w' : Bool} (h : w' ≠ w) : w' = !w := by
  cases w <;> cases w' <;> simp_all

/-- Phase outcome: fetch on a warm cache. -/
theorem hstep_pc0 {db : List Task} {pid : ℕ} {p : MoveTaskPayload}
    {now : String} {svc : ServiceState} {locks : LockState}
    {bc : List Task} {m : MoverState} (h : m.pc = 0)
    (hInv : CacheInv svc) {rec : Task}
    (hrec : getTaskFromCache svc p.id = some rec) (hrid : rec.id = p.id) :
    handleTaskMoveStep db pid p now svc locks bc m
      = (svc, locks, bc, moverFetchOk m rec) := by
  obtain ⟨hfind, hsnd⟩ := find_in_getAllTasks db hInv hrec hrid
  unfold handleTaskMoveStep
  rw [if_pos h]
  simp only [hfind, hsnd]

/-- Phase outcome: acquire with the lock free. -/
theorem hstep_pc1_free {db : List Task} {pid : ℕ} {p : MoveTaskPayload}
    {now : String} {svc : ServiceState} {locks : LockState}
    {bc : List Task} {m : MoverState} {cur : Task} (h : m.pc = 1)
    (hs : m.snap = some cur) (hfree : locks p.id = none) :
    handleTaskMoveStep db pid p now svc locks bc m
      = (svc, fun k => if k = p.id then some (SERVER_ID pid) else locks k,
          bc, moverAcquired m) := by
  unfold handleTaskMoveStep
  rw [if_neg (by rw [h]; exact one_ne_zero), if_pos h, hs]
  show (let res := acquireMoveLock pid locks p.id cur
    if res.1.acquired then (svc, res.2, bc, moverAcquired m)
    else (svc, res.2, bc, moverConflicted m cur)) = _
  unfold acquireMoveLock
  rw [hfree]
  rfl

/-- Phase outcome: acquire with the lock held — the loser path. -/
theorem hstep_pc1_held {db : List Task} {pid : ℕ} {p : MoveTaskPayload}
    {now : String} {svc : ServiceState} {locks : LockState}
    {bc : List Task} {m : MoverState} {cur : Task} (h : m.pc = 1)
    (hs : m.snap = some cur) {o : String} (hheld : locks p.id = some o) :
    handleTaskMoveStep db pid p now svc locks bc m
      = (svc, locks, bc, moverConflicted m cur) := by
  unfold handleTaskMoveStep
  rw [if_neg (by rw [h]; exact one_ne_zero), if_pos h, hs]
  show (let res := acquireMoveLock pid locks p.id cur
    if res.1.acquired then (svc, res.2, bc, moverAcquired m)
    else (svc, res.2, bc, moverConflicted m cur)) = _
  unfold acquireMoveLock
  rw [hheld]
  rfl

/-- Phase outcome: apply and broadcast — the lock stays held until the
`finally`. -/
theorem hstep_pc2 {db : List Task} {pid : ℕ} {p : MoveTaskPayload}
    {now : String} {svc : ServiceState} {locks : LockState}
    {bc : List Task} {m : MoverState} (h : m.pc = 2) {rec : Task}
    (hit : getTaskFromCache svc p.id = some rec) :
    handleTaskMoveStep db pid p now svc locks bc m
      = ((moveTask db svc p now).2, locks,
          bc ++ [applyMove rec p now], moverApplied m) := by
  have hfst := moveTask_fst db now hit
  unfold handleTaskMoveStep
  rw [if_neg (by rw [h]; exact two_ne_zero), if_neg (by rw [h]; norm_num),
    if_pos h]
  simp only [hfst]

/-- Phase outcome: the `finally { releaseMoveLock }`. -/
theorem hstep_pc3 {db : List Task} {pid : ℕ} {p : MoveTaskPayload}
    {now : String} {svc : ServiceState} {locks : LockState}
    {bc : List Task} {m : MoverState} (h : m.pc = 3) :
    handleTaskMoveStep db pid p now svc locks bc m
      = (svc, releaseMoveLock pid locks p.id, bc, moverReleased m) := by
  unfold handleTaskMoveStep
  rw [if_neg (by rw [h]; norm_num), if_neg (by rw [h]; norm_num),
    if_neg (by rw [h]; norm_num), if_pos h]

/-- Phase outcome: a finished mover is a no-op. -/
theorem hstep_done {db : List Task} {pid : ℕ} {p : MoveTaskPayload}
    {now : String} {svc : ServiceState} {locks : LockState}
    {bc : List Task} {m : MoverState} (h0 : m.pc ≠ 0) (h1 : m.pc ≠ 1)
    (h2 : m.pc ≠ 2) (h3 : m.pc ≠ 3) :
    handleTaskMoveStep db pid p now svc locks bc m = (svc, locks, bc, m) := by
  unfold handleTaskMoveStep
  rw [if_neg h0, if_neg h1, if_neg h2, if_neg h3]

/-- A Bool is never its own negation. -/
theorem bool_not_ne (u : Bool) : (!u) ≠ u := by
  cases u <;> decide

/-- Both movers' payloads target A's task when B aims at the same id. -/
theorem envPayload_id {e : MoveEnv} (hpB : e.pB.id = e.pA.id) (w : Bool) :
    (envPayload e w).id = e.pA.id := by
  cases w
  · rfl
  · exact hpB

/-- Program counter after a successful fetch. -/
theorem moverFetchOk_pc (m : MoverState) (cur : Task) :
    (moverFetchOk m cur).pc = 1 := rfl

/-- Snapshot after a successful fetch. -/
theorem moverFetchOk_snap (m : MoverState) (cur : Task) :
    (moverFetchOk m cur).snap = some cur := rfl

/-- Program counter after winning the lock. -/
theorem moverAcquired_pc (m : MoverState) : (moverAcquired m).pc = 2 := rfl

/-- Program counter after losing the lock. -/
theorem moverConflicted_pc (m : MoverState) (cur : Task) :
    (moverConflicted m cur).pc = 4 := rfl

/-- Acquisition flag after losing the lock. -/
theorem moverConflicted_acquired (m : MoverState) (cur : Task) :
    (moverConflicted m cur).acquired = m.acquired := rfl

/-- Conflict log after losing the lock. -/
theorem moverConflicted_conflicts (m : MoverState) (cur : Task) :
    (moverConflicted m cur).conflicts = m.conflicts ++ [cur] := rfl

/-- Program counter after applying the move. -/
theorem moverApplied_pc (m : MoverState) : (moverApplied m).pc = 3 := rfl

/-- Program counter after the `finally` release. -/
theorem moverReleased_pc (m : MoverState) : (moverReleased m).pc = 4 := rfl

/-- A mover whose pc is neither 3 nor 4 has not applied. -/
theorem notDidApply_of_pc {m : MoverState} {n : ℕ} (h : m.pc = n)
    (h3 : n ≠ 3) (h4 : n ≠ 4) : ¬ moverDidApply m := by
  rintro ⟨hp | hp, _⟩
  · rw [h] at hp
    exact h3 hp
  · rw [h] at hp
    exact h4 hp

/-- A mover that never acquired the lock has not applied. -/
theorem notDidApply_of_acq {m : MoverState} (h : m.acquired = false) :
    ¬ moverDidApply m := by
  rintro ⟨_, ha⟩
  rw [h] at ha
  exact absurd ha (by decide)


/-- The fetch phase preserves the race invariant. -/
theorem MoveInv_step_fetch {e : MoveEnv} {s0 : ServiceState} {T : Task}
    {sys : MoveSys} (hpB : e.pB.id = e.pA.id)
    (hT : getTaskFromCache s0 e.pA.id = some T) (hTid : T.id = e.pA.id)
    (hInv : MoveInv e s0 T sys) (u : Bool) (h0 : (mover sys u).pc = 0) :
    MoveInv e s0 T (sysStep e sys u) := by
  have hpid : (envPayload e u).id = e.pA.id := envPayload_id hpB u
  obtain ⟨hCI, rec, hrec, hrid⟩ := hInv.warm
  have hrec2 : getTaskFromCache sys.svc (envPayload e u).id = some rec := by
    rw [hpid]; exact hrec
  have hrid2 : rec.id = (envPayload e u).id := by rw [hpid]; exact hrid
  have hstep := @hstep_pc0 e.db e.pid (envPayload e u) (envNow e u) sys.svc
    sys.locks sys.broadcasts (mover sys u) h0 hCI rec hrec2 hrid2
  obtain ⟨hsvc0, hlocks0, hbc0, hmu0, hmo0⟩ := sysStep_facts e sys u hstep
  have hsvc : (sysStep e sys u).svc = sys.svc := hsvc0
  have hlocks : (sysStep e sys u).locks = sys.locks := hlocks0
  have hbc : (sysStep e sys u).broadcasts = sys.broadcasts := hbc0
  have hmu : mover (sysStep e sys u) u = moverFetchOk (mover sys u) rec := hmu0
  have hmo : mover (sysStep e sys u) (!u) = mover sys (!u) := hmo0
  obtain ⟨hacq0, hfail0⟩ := hInv.st0 u h0
  have hnau : ¬ moverDidApply (mover sys u) :=
    notDidApply_of_pc h0 (by decide) (by decide)
  refine ⟨?_, ?_, ?_, ?_, ?_, ?_, ?_, ?_, ?_, ?_, ?_, ?_, ?_⟩
  · rw [hsvc]; exact ⟨hCI, rec, hrec, hrid⟩
  · rw [hlocks]; exact hInv.lockVal
  · rw [hlocks]
    constructor
    · intro h
      obtain ⟨w, hw⟩ := hInv.lockCS.mp h
      by_cases hwu : w = u
      · rw [hwu, h0] at hw
        rcases hw with hw | hw <;> exact absurd hw (by decide)
      · rw [bool_other hwu] at hw
        exact ⟨!u, by rw [hmo]; exact hw⟩
    · rintro ⟨w, hw⟩
      apply hInv.lockCS.mpr
      by_cases hwu : w = u
      · rw [hwu, hmu, moverFetchOk_pc] at hw
        rcases hw with hw | hw <;> exact absurd hw (by decide)
      · rw [bool_other hwu, hmo] at hw
        exact ⟨!u, hw⟩
  · intro w w' hw hw'
    have key : ∀ v, (mover (sysStep e sys u) v).pc = 2 ∨
        (mover (sysStep e sys u) v).pc = 3 →
        (mover sys v).pc = 2 ∨ (mover sys v).pc = 3 := by
      intro v hv
      by_cases hvu : v = u
      · rw [hvu, hmu, moverFetchOk_pc] at hv
        rcases hv with hv | hv <;> exact absurd hv (by decide)
      · rw [bool_other hvu, hmo] at hv
        rw [bool_other hvu]
        exact hv
    exact hInv.noCS2 w w' (key w hw) (key w' hw')
  · intro w hw
    by_cases hwu : w = u
    · rw [hwu, hmu, moverFetchOk_pc] at hw
      exact absurd hw (by decide)
    · rw [bool_other hwu, hmo] at hw ⊢
      exact hInv.st0 (!u) hw
  · intro w hw
    by_cases hwu : w = u
    · rw [hwu, hmu]
      exact ⟨hacq0, hfail0, rec, rfl⟩
    · rw [bool_other hwu, hmo] at hw ⊢
      exact hInv.st1 (!u) hw
  · intro w hw
    by_cases hwu : w = u
    · rw [hwu, hmu, moverFetchOk_pc] at hw
      rcases hw with hw | hw <;> exact absurd hw (by decide)
    · rw [bool_other hwu, hmo] at hw ⊢
      exact hInv.st23 (!u) hw
  · intro w
    by_cases hwu : w = u
    · rw [hwu, hmu]
      exact hInv.errs u
    · rw [bool_other hwu, hmo]
      exact hInv.errs (!u)
  · intro w hw
    by_cases hwu : w = u
    · rw [hwu, hmu] at hw ⊢
      exact hInv.confl u hw
    · rw [bool_other hwu, hmo] at hw ⊢
      exact hInv.confl (!u) hw
  · intro w hw
    by_cases hwu : w = u
    · rw [hwu, hmu] at hw
      have hw' : (mover sys u).failed = true := hw
      rw [hfail0] at hw'
      exact absurd hw' (by decide)
    · rw [bool_other hwu] at hw ⊢
      rw [hmo] at hw
      obtain ⟨hp4, haf, hcf, hoacq⟩ := hInv.failedSt (!u) hw
      rw [Bool.not_not] at hoacq
      refine ⟨?_, ?_, ?_, ?_⟩
      · rw [hmo]; exact hp4
      · rw [hmo]; exact haf
      · rw [hmo]; exact hcf
      · rw [Bool.not_not, hmu]
        exact hoacq
  · intro w hw
    by_cases hwu : w = u
    · rw [hwu] at hw ⊢
      by_cases happB : moverDidApply (mover sys (!u))
      · right
        have hnotu : ¬ moverDidApply (mover sys (!(!u))) := by
          rw [Bool.not_not]
          exact hnau
        obtain ⟨hsvcEq, _⟩ := hInv.oneApp (!u) happB hnotu
        have hpost := getTaskFromCache_moveTask e.db (envNow e (!u))
          (show getTaskFromCache s0 (envPayload e (!u)).id = some T by
            rw [envPayload_id hpB]; exact hT)
          (show T.id = (envPayload e (!u)).id by
            rw [envPayload_id hpB]; exact hTid)
        rw [envPayload_id hpB] at hpost
        rw [← hsvcEq] at hpost
        have hrecEq : rec = applyMove T (envPayload e (!u)) (envNow e (!u)) :=
          Option.some.inj (hrec.symm.trans hpost)
        constructor
        · rw [hmo]
          exact happB
        · rw [hmu, moverFetchOk_snap, hrecEq]
      · left
        have hnone : ∀ v, ¬ moverDidApply (mover sys v) := by
          intro v
          by_cases hvu : v = u
          · rw [hvu]; exact hnau
          · rw [bool_other hvu]; exact happB
        obtain ⟨hs0, _⟩ := hInv.noApp hnone
        have hrT : rec = T := by
          have h' := hrec
          rw [hs0] at h'
          exact Option.some.inj (h'.symm.trans hT)
        rw [hmu, moverFetchOk_snap, hrT]
    · rw [bool_other hwu] at hw ⊢
      rw [hmo] at hw
      rcases hInv.snapT (!u) hw with hsn | ⟨hda, hsn⟩
      · left
        rw [hmo]
        exact hsn
      · exfalso
        rw [Bool.not_not] at hda
        exact hnau hda
  · intro hnone
    have hold : ∀ v, ¬ moverDidApply (mover sys v) := by
      intro v
      by_cases hvu : v = u
      · rw [hvu]; exact hnau
      · rw [bool_other hvu]
        have h := hnone (!u)
        rw [hmo] at h
        exact h
    obtain ⟨hs0, hb0⟩ := hInv.noApp hold
    exact ⟨by rw [hsvc]; exact hs0, by rw [hbc]; exact hb0⟩
  · intro v hv hnv
    by_cases hvu : v = u
    · rw [hvu] at hv
      rw [hmu] at hv
      obtain ⟨hp, _⟩ := hv
      rw [moverFetchOk_pc] at hp
      rcases hp with hp | hp <;> exact absurd hp (by decide)
    · have hv' : v = !u := bool_other hvu
      subst hv'
      rw [hmo] at hv
      have hnotu : ¬ moverDidApply (mover sys (!(!u))) := by
        rw [Bool.not_not]
        exact hnau
      obtain ⟨hsv, hbv⟩ := hInv.oneApp (!u) hv hnotu
      exact ⟨by rw [hsvc]; exact hsv, by rw [hbc]; exact hbv⟩

/-- The acquire phase preserves the race invariant. -/
theorem MoveInv_step_acquire {e : MoveEnv} {s0 : ServiceState} {T : Task}
    {sys : MoveSys} (hpB : e.pB.id = e.pA.id)
    (hInv : MoveInv e s0 T sys) (u : Bool) (h1 : (mover sys u).pc = 1) :
    MoveInv e s0 T (sysStep e sys u) := by
  have hpid : (envPayload e u).id = e.pA.id := envPayload_id hpB u
  obtain ⟨hacq1, hfail1, v, hsnap⟩ := hInv.st1 u h1
  have hnau : ¬ moverDidApply (mover sys u) :=
    notDidApply_of_pc h1 (by decide) (by decide)
  rcases hlk : sys.locks e.pA.id with _ | o
  · -- the lock is free: the mover wins
    have hstep := @hstep_pc1_free e.db e.pid (envPayload e u) (envNow e u)
      sys.svc sys.locks sys.broadcasts (mover sys u) v h1 hsnap
      (by rw [hpid]; exact hlk)
    obtain ⟨hsvc0, hlocks0, hbc0, hmu0, hmo0⟩ := sysStep_facts e sys u hstep
    have hsvc : (sysStep e sys u).svc = sys.svc := hsvc0
    have hlocks : (sysStep e sys u).locks
        = fun k => if k = (envPayload e u).id then some (SERVER_ID e.pid)
          else sys.locks k := hlocks0
    have hbc : (sysStep e sys u).broadcasts = sys.broadcasts := hbc0
    have hmu : mover (sysStep e sys u) u = moverAcquired (mover sys u) := hmu0
    have hmo : mover (sysStep e sys u) (!u) = mover sys (!u) := hmo0
    have hno23 : ∀ w2, ¬ ((mover sys w2).pc = 2 ∨ (mover sys w2).pc = 3) := by
      intro w2 hw2
      exact hInv.lockCS.mpr ⟨w2, hw2⟩ hlk
    have hnofail : ∀ w2, (mover sys w2).failed = false := by
      intro w2
      rcases hb : (mover sys w2).failed with _ | _
      · rfl
      · exfalso
        by_cases hwu : w2 = u
        · rw [hwu] at hb
          rw [hfail1] at hb
          exact absurd hb (by decide)
        · rw [bool_other hwu] at hb
          have hoacq := (hInv.failedSt (!u) hb).2.2.2
          rw [Bool.not_not] at hoacq
          rw [hacq1] at hoacq
          exact absurd hoacq (by decide)
    have hlknew : (sysStep e sys u).locks e.pA.id = some (SERVER_ID e.pid) := by
      rw [hlocks]
      show (if e.pA.id = (envPayload e u).id then some (SERVER_ID e.pid)
        else sys.locks e.pA.id) = some (SERVER_ID e.pid)
      rw [if_pos hpid.symm]
    refine ⟨?_, ?_, ?_, ?_, ?_, ?_, ?_, ?_, ?_, ?_, ?_, ?_, ?_⟩
    · rw [hsvc]; exact hInv.warm
    · exact Or.inr hlknew
    · rw [hlknew]
      constructor
      · intro _
        exact ⟨u, Or.inl (by rw [hmu, moverAcquired_pc])⟩
      · intro _
        exact Option.some_ne_none _
    · intro w w' hw hw'
      have key : ∀ v2, (mover (sysStep e sys u) v2).pc = 2 ∨
          (mover (sysStep e sys u) v2).pc = 3 → v2 = u := by
        intro v2 hv
        by_cases hvu : v2 = u
        · exact hvu
        · exfalso
          rw [bool_other hvu, hmo] at hv
          exact hno23 (!u) hv
      rw [key w hw, key w' hw']
    · intro w hw
      by_cases hwu : w = u
      · rw [hwu, hmu, moverAcquired_pc] at hw
        exact absurd hw (by decide)
      · rw [bool_other hwu, hmo] at hw ⊢
        exact hInv.st0 (!u) hw
    · intro w hw
      by_cases hwu : w = u
      · rw [hwu, hmu, moverAcquired_pc] at hw
        exact absurd hw (by decide)
      · rw [bool_other hwu, hmo] at hw ⊢
        exact hInv.st1 (!u) hw
    · intro w hw
      by_cases hwu : w = u
      · rw [hwu, hmu]
        exact ⟨rfl, hfail1⟩
      · rw [bool_other hwu, hmo] at hw
        exact absurd hw (hno23 (!u))
    · intro w
      by_cases hwu : w = u
      · rw [hwu, hmu]
        exact hInv.errs u
      · rw [bool_other hwu, hmo]
        exact hInv.errs (!u)
    · intro w hw
      by_cases hwu : w = u
      · rw [hwu, hmu] at hw ⊢
        exact hInv.confl u hw
      · rw [bool_other hwu, hmo] at hw ⊢
        exact hInv.confl (!u) hw
    · intro w hw
      by_cases hwu : w = u
      · rw [hwu, hmu] at hw
        have hw' : (mover sys u).failed = true := hw
        rw [hfail1] at hw'
        exact absurd hw' (by decide)
      · rw [bool_other hwu] at hw
        rw [hmo] at hw
        rw [hnofail (!u)] at hw
        exact absurd hw (by decide)
    · intro w hw
      by_cases hwu : w = u
      · rw [hwu, hmu, moverAcquired_pc] at hw
        exact absurd hw (by decide)
      · rw [bool_other hwu] at hw ⊢
        rw [hmo] at hw
        rcases hInv.snapT (!u) hw with hsn | ⟨hda, hsn⟩
        · left
          rw [hmo]
          exact hsn
        · exfalso
          rw [Bool.not_not] at hda
          exact hnau hda
    · intro hnone
      have hold : ∀ v2, ¬ moverDidApply (mover sys v2) := by
        intro v2
        by_cases hvu : v2 = u
        · rw [hvu]; exact hnau
        · rw [bool_other hvu]
          have h := hnone (!u)
          rw [hmo] at h
          exact h
      obtain ⟨hs0, hb0⟩ := hInv.noApp hold
      exact ⟨by rw [hsvc]; exact hs0, by rw [hbc]; exact hb0⟩
    · intro v2 hv hnv
      by_cases hvu : v2 = u
      · rw [hvu] at hv
        rw [hmu] at hv
        obtain ⟨hp, _⟩ := hv
        rw [moverAcquired_pc] at hp
        rcases hp with hp | hp <;> exact absurd hp (by decide)
      · have hv' : v2 = !u := bool_other hvu
        subst hv'
        rw [hmo] at hv
        have hnotu : ¬ moverDidApply (mover sys (!(!u))) := by
          rw [Bool.not_not]
          exact hnau
        obtain ⟨hsv, hbv⟩ := hInv.oneApp (!u) hv hnotu
        exact ⟨by rw [hsvc]; exact hsv, by rw [hbc]; exact hbv⟩
  · -- the lock is held: the mover loses and is privately notified
    have hstep := @hstep_pc1_held e.db e.pid (envPayload e u) (envNow e u)
      sys.svc sys.locks sys.broadcasts (mover sys u) v h1 hsnap o
      (by rw [hpid]; exact hlk)
    obtain ⟨hsvc0, hlocks0, hbc0, hmu0, hmo0⟩ := sysStep_facts e sys u hstep
    have hsvc : (sysStep e sys u).svc = sys.svc := hsvc0
    have hlocks : (sysStep e sys u).locks = sys.locks := hlocks0
    have hbc : (sysStep e sys u).broadcasts = sys.broadcasts := hbc0
    have hmu : mover (sysStep e sys u) u = moverConflicted (mover sys u) v := hmu0
    have hmo : mover (sysStep e sys u) (!u) = mover sys (!u) := hmo0
    have hlkne : sys.locks e.pA.id ≠ none := by
      rw [hlk]; exact Option.some_ne_none o
    obtain ⟨wcs, hwcs⟩ := hInv.lockCS.mp hlkne
    have hwcsu : wcs ≠ u := by
      intro hq
      rw [hq] at hwcs
      rw [h1] at hwcs
      rcases hwcs with hc | hc <;> exact absurd hc (by decide)
    have hcs : (mover sys (!u)).pc = 2 ∨ (mover sys (!u)).pc = 3 := by
      rw [← bool_other hwcsu]
      exact hwcs
    obtain ⟨hoacq, hofail⟩ := hInv.st23 (!u) hcs
    have hcfu : (mover sys u).conflicts = [] := hInv.confl u hfail1
    refine ⟨?_, ?_, ?_, ?_, ?_, ?_, ?_, ?_, ?_, ?_, ?_, ?_, ?_⟩
    · rw [hsvc]; exact hInv.warm
    · rw [hlocks]; exact hInv.lockVal
    · rw [hlocks]
      constructor
      · intro _
        refine ⟨!u, ?_⟩
        rw [hmo]
        exact hcs
      · intro _
        exact hlkne
    · intro w w' hw hw'
      have key : ∀ v2, (mover (sysStep e sys u) v2).pc = 2 ∨
          (mover (sysStep e sys u) v2).pc = 3 → v2 = !u := by
        intro v2 hv
        by_cases hvu : v2 = u
        · rw [hvu, hmu, moverConflicted_pc] at hv
          rcases hv with hv | hv <;> exact absurd hv (by decide)
        · exact bool_other hvu
      rw [key w hw, key w' hw']
    · intro w hw
      by_cases hwu : w = u
      · rw [hwu, hmu, moverConflicted_pc] at hw
        exact absurd hw (by decide)
      · rw [bool_other hwu, hmo] at hw ⊢
        exact hInv.st0 (!u) hw
    · intro w hw
      by_cases hwu : w = u
      · rw [hwu, hmu, moverConflicted_pc] at hw
        exact absurd hw (by decide)
      · rw [bool_other hwu, hmo] at hw ⊢
        exact hInv.st1 (!u) hw
    · intro w hw
      by_cases hwu : w = u
      · rw [hwu, hmu, moverConflicted_pc] at hw
        rcases hw with hw | hw <;> exact absurd hw (by decide)
      · rw [bool_other hwu, hmo] at hw ⊢
        exact hInv.st23 (!u) hw
    · intro w
      by_cases hwu : w = u
      · rw [hwu, hmu]
        exact hInv.errs u
      · rw [bool_other hwu, hmo]
        exact hInv.errs (!u)
    · intro w hw
      by_cases hwu : w = u
      · rw [hwu, hmu] at hw
        have hw' : (true : Bool) = false := hw
        exact absurd hw' (by decide)
      · rw [bool_other hwu, hmo] at hw ⊢
        exact hInv.confl (!u) hw
    · intro w hw
      by_cases hwu : w = u
      · refine ⟨?_, ?_, ?_, ?_⟩
        · rw [hwu, hmu, moverConflicted_pc]
        · rw [hwu, hmu, moverConflicted_acquired]
          exact hacq1
        · rw [hwu, hmu, moverConflicted_conflicts, hcfu]
          rcases hInv.snapT u h1 with hsn | ⟨_, hsn⟩
          · left
            rw [hsnap] at hsn
            rw [Option.some.inj hsn]
            exact List.nil_append _
          · right
            rw [hsnap] at hsn
            rw [Option.some.inj hsn]
            exact List.nil_append _
        · rw [hwu, hmo]
          exact hoacq
      · rw [bool_other hwu] at hw
        rw [hmo] at hw
        rw [hofail] at hw
        exact absurd hw (by decide)
    · intro w hw
      by_cases hwu : w = u
      · rw [hwu, hmu, moverConflicted_pc] at hw
        exact absurd hw (by decide)
      · rw [bool_other hwu] at hw
        rw [hmo] at hw
        rcases hcs with hc | hc <;> (rw [hw] at hc; exact absurd hc (by decide))
    · intro hnone
      have hold : ∀ v2, ¬ moverDidApply (mover sys v2) := by
        intro v2
        by_cases hvu : v2 = u
        · rw [hvu]; exact hnau
        · rw [bool_other hvu]
          have h := hnone (!u)
          rw [hmo] at h
          exact h
      obtain ⟨hs0, hb0⟩ := hInv.noApp hold
      exact ⟨by rw [hsvc]; exact hs0, by rw [hbc]; exact hb0⟩
    · intro v2 hv hnv
      by_cases hvu : v2 = u
      · rw [hvu] at hv
        rw [hmu] at hv
        obtain ⟨_, ha⟩ := hv
        have ha' : (mover sys u).acquired = true := ha
        rw [hacq1] at ha'
        exact absurd ha' (by decide)
      · have hv' : v2 = !u := bool_other hvu
        subst hv'
        rw [hmo] at hv
        have hnotu : ¬ moverDidApply (mover sys (!(!u))) := by
          rw [Bool.not_not]
          exact notDidApply_of_acq hacq1
        obtain ⟨hsv, hbv⟩ := hInv.oneApp (!u) hv hnotu
        exact ⟨by rw [hsvc]; exact hsv, by rw [hbc]; exact hbv⟩

/-- The apply/broadcast phase preserves the race invariant. -/
theorem MoveInv_step_apply {e : MoveEnv} {s0 : ServiceState} {T : Task}
    {sys : MoveSys} (hdb : dbWf e.db) (hpB : e.pB.id = e.pA.id)
    (hT : getTaskFromCache s0 e.pA.id = some T)
    (hInv : MoveInv e s0 T sys) (u : Bool) (h2 : (mover sys u).pc = 2) :
    MoveInv e s0 T (sysStep e sys u) := by
  have hpid : (envPayload e u).id = e.pA.id := envPayload_id hpB u
  obtain ⟨hacq2, hfail2⟩ := hInv.st23 u (Or.inl h2)
  obtain ⟨hCI, rec, hrec, hrid⟩ := hInv.warm
  have hrec2 : getTaskFromCache sys.svc (envPayload e u).id = some rec := by
    rw [hpid]; exact hrec
  have hrid2 : rec.id = (envPayload e u).id := by rw [hpid]; exact hrid
  have hnau : ¬ moverDidApply (mover sys u) :=
    notDidApply_of_pc h2 (by decide) (by decide)
  have hstep := @hstep_pc2 e.db e.pid (envPayload e u) (envNow e u) sys.svc
    sys.locks sys.broadcasts (mover sys u) h2 rec hrec2
  obtain ⟨hsvc0, hlocks0, hbc0, hmu0, hmo0⟩ := sysStep_facts e sys u hstep
  have hsvc : (sysStep e sys u).svc
      = (moveTask e.db sys.svc (envPayload e u) (envNow e u)).2 := hsvc0
  have hlocks : (sysStep e sys u).locks = sys.locks := hlocks0
  have hbc : (sysStep e sys u).broadcasts
      = sys.broadcasts ++ [applyMove rec (envPayload e u) (envNow e u)] := hbc0
  have hmu : mover (sysStep e sys u) u = moverApplied (mover sys u) := hmu0
  have hmo : mover (sysStep e sys u) (!u) = mover sys (!u) := hmo0
  have hlkne : sys.locks e.pA.id ≠ none := hInv.lockCS.mpr ⟨u, Or.inl h2⟩
  have hpcu3 : (mover (sysStep e sys u) u).pc = 3 := by
    rw [hmu, moverApplied_pc]
  have happ' : moverDidApply (mover (sysStep e sys u) u) := by
    refine ⟨Or.inl hpcu3, ?_⟩
    rw [hmu]
    exact hacq2
  have key23 : ∀ v2, (mover (sysStep e sys u) v2).pc = 2 ∨
      (mover (sysStep e sys u) v2).pc = 3 → v2 = u := by
    intro v2 hv
    by_cases hvu : v2 = u
    · exact hvu
    · exfalso
      rw [bool_other hvu, hmo] at hv
      exact bool_not_ne u (hInv.noCS2 u (!u) (Or.inl h2) hv)
  refine ⟨?_, ?_, ?_, ?_, ?_, ?_, ?_, ?_, ?_, ?_, ?_, ?_, ?_⟩
  · constructor
    · rw [hsvc]
      exact inv_moveTask e.db hdb hCI (envPayload e u) (envNow e u)
    · refine ⟨applyMove rec (envPayload e u) (envNow e u), ?_, ?_⟩
      · rw [hsvc]
        have h := getTaskFromCache_moveTask e.db (envNow e u) hrec2 hrid2
        rw [hpid] at h
        exact h
      · exact hrid
  · rw [hlocks]; exact hInv.lockVal
  · rw [hlocks]
    constructor
    · intro _
      exact ⟨u, Or.inr hpcu3⟩
    · intro _
      exact hlkne
  · intro w w' hw hw'
    rw [key23 w hw, key23 w' hw']
  · intro w hw
    by_cases hwu : w = u
    · rw [hwu, hpcu3] at hw
      exact absurd hw (by decide)
    · rw [bool_other hwu, hmo] at hw ⊢
      exact hInv.st0 (!u) hw
  · intro w hw
    by_cases hwu : w = u
    · rw [hwu, hpcu3] at hw
      exact absurd hw (by decide)
    · rw [bool_other hwu, hmo] at hw ⊢
      exact hInv.st1 (!u) hw
  · intro w hw
    by_cases hwu : w = u
    · rw [hwu, hmu]
      exact ⟨hacq2, hfail2⟩
    · rw [bool_other hwu, hmo] at hw
      exact absurd (hInv.noCS2 u (!u) (Or.inl h2) hw) (bool_not_ne u)
  · intro w
    by_cases hwu : w = u
    · rw [hwu, hmu]
      exact hInv.errs u
    · rw [bool_other hwu, hmo]
      exact hInv.errs (!u)
  · intro w hw
    by_cases hwu : w = u
    · rw [hwu, hmu] at hw ⊢
      exact hInv.confl u hw
    · rw [bool_other hwu, hmo] at hw ⊢
      exact hInv.confl (!u) hw
  · intro w hw
    by_cases hwu : w = u
    · rw [hwu, hmu] at hw
      have hw' : (mover sys u).failed = true := hw
      rw [hfail2] at hw'
      exact absurd hw' (by decide)
    · rw [bool_other hwu] at hw ⊢
      rw [hmo] at hw
      obtain ⟨hp4, haf, hcf, hoacq⟩ := hInv.failedSt (!u) hw
      rw [Bool.not_not] at hoacq
      refine ⟨?_, ?_, ?_, ?_⟩
      · rw [hmo]; exact hp4
      · rw [hmo]; exact haf
      · rw [hmo]; exact hcf
      · rw [Bool.not_not, hmu]
        exact hoacq
  · intro w hw
    by_cases hwu : w = u
    · rw [hwu, hpcu3] at hw
      exact absurd hw (by decide)
    · rw [bool_other hwu] at hw ⊢
      rw [hmo] at hw
      rcases hInv.snapT (!u) hw with hsn | ⟨hda, hsn⟩
      · left
        rw [hmo]
        exact hsn
      · exfalso
        rw [Bool.not_not] at hda
        exact hnau hda
  · intro hnone
    exact absurd happ' (hnone u)
  · intro v2 hv hnv
    by_cases hvu : v2 = u
    · rw [hvu] at hv hnv ⊢
      rw [hmo] at hnv
      have holdA : ∀ w2, ¬ moverDidApply (mover sys w2) := by
        intro w2
        by_cases hw2 : w2 = u
        · rw [hw2]; exact hnau
        · rw [bool_other hw2]; exact hnv
      obtain ⟨hs0, hb0⟩ := hInv.noApp holdA
      have hrT : rec = T := by
        have h' := hrec
        rw [hs0] at h'
        exact Option.some.inj (h'.symm.trans hT)
      constructor
      · rw [hsvc, hs0]
      · rw [hbc, hb0, hrT]
        exact List.nil_append _
    · have hv' : v2 = !u := bool_other hvu
      subst hv'
      rw [Bool.not_not] at hnv
      exact absurd happ' hnv

/-- The `finally`-release phase preserves the race invariant. -/
theorem MoveInv_step_release {e : MoveEnv} {s0 : ServiceState} {T : Task}
    {sys : MoveSys} (hpB : e.pB.id = e.pA.id)
    (hInv : MoveInv e s0 T sys) (u : Bool) (h3 : (mover sys u).pc = 3) :
    MoveInv e s0 T (sysStep e sys u) := by
  have hpid : (envPayload e u).id = e.pA.id := envPayload_id hpB u
  obtain ⟨hacq3, hfail3⟩ := hInv.st23 u (Or.inr h3)
  have hstep := @hstep_pc3 e.db e.pid (envPayload e u) (envNow e u) sys.svc
    sys.locks sys.broadcasts (mover sys u) h3
  obtain ⟨hsvc0, hlocks0, hbc0, hmu0, hmo0⟩ := sysStep_facts e sys u hstep
  have hsvc : (sysStep e sys u).svc = sys.svc := hsvc0
  have hlocks : (sysStep e sys u).locks
      = releaseMoveLock e.pid sys.locks (envPayload e u).id := hlocks0
  have hbc : (sysStep e sys u).broadcasts = sys.broadcasts := hbc0
  have hmu : mover (sysStep e sys u) u = moverReleased (mover sys u) := hmu0
  have hmo : mover (sysStep e sys u) (!u) = mover sys (!u) := hmo0
  have hlkne : sys.locks e.pA.id ≠ none := hInv.lockCS.mpr ⟨u, Or.inr h3⟩
  have hheld : sys.locks e.pA.id = some (SERVER_ID e.pid) := by
    rcases hInv.lockVal with h | h
    · exact absurd h hlkne
    · exact h
  have hlkz : (sysStep e sys u).locks e.pA.id = none := by
    rw [hlocks]
    show releaseMoveLock e.pid sys.locks (envPayload e u).id e.pA.id = none
    unfold releaseMoveLock
    rw [hpid, hheld]
    show (if SERVER_ID e.pid = SERVER_ID e.pid then
        (fun k => if k = e.pA.id then none else sys.locks k)
      else sys.locks) e.pA.id = none
    rw [if_pos rfl]
    show (if e.pA.id = e.pA.id then none else sys.locks e.pA.id)
      = (none : Option String)
    rw [if_pos rfl]
  have hpcu4 : (mover (sysStep e sys u) u).pc = 4 := by
    rw [hmu, moverReleased_pc]
  have happ_old : moverDidApply (mover sys u) := ⟨Or.inl h3, hacq3⟩
  have happ' : moverDidApply (mover (sysStep e sys u) u) := by
    refine ⟨Or.inr hpcu4, ?_⟩
    rw [hmu]
    exact hacq3
  have hno23' : ∀ v2, ¬ ((mover (sysStep e sys u) v2).pc = 2 ∨
      (mover (sysStep e sys u) v2).pc = 3) := by
    intro v2 hv
    by_cases hvu : v2 = u
    · rw [hvu, hpcu4] at hv
      rcases hv with hv | hv <;> exact absurd hv (by decide)
    · rw [bool_other hvu, hmo] at hv
      exact bool_not_ne u (hInv.noCS2 u (!u) (Or.inr h3) hv)
  refine ⟨?_, ?_, ?_, ?_, ?_, ?_, ?_, ?_, ?_, ?_, ?_, ?_, ?_⟩
  · rw [hsvc]; exact hInv.warm
  · exact Or.inl hlkz
  · rw [hlkz]
    constructor
    · intro h
      exact absurd rfl h
    · rintro ⟨w, hw⟩
      exact absurd hw (hno23' w)
  · intro w w' hw _
    exact absurd hw (hno23' w)
  · intro w hw
    by_cases hwu : w = u
    · rw [hwu, hpcu4] at hw
      exact absurd hw (by decide)
    · rw [bool_other hwu, hmo] at hw ⊢
      exact hInv.st0 (!u) hw
  · intro w hw
    by_cases hwu : w = u
    · rw [hwu, hpcu4] at hw
      exact absurd hw (by decide)
    · rw [bool_other hwu, hmo] at hw ⊢
      exact hInv.st1 (!u) hw
  · intro w hw
    exact absurd hw (hno23' w)
  · intro w
    by_cases hwu : w = u
    · rw [hwu, hmu]
      exact hInv.errs u
    · rw [bool_other hwu, hmo]
      exact hInv.errs (!u)
  · intro w hw
    by_cases hwu : w = u
    · rw [hwu, hmu] at hw ⊢
      exact hInv.confl u hw
    · rw [bool_other hwu, hmo] at hw ⊢
      exact hInv.confl (!u) hw
  · intro w hw
    by_cases hwu : w = u
    · rw [hwu, hmu] at hw
      have hw' : (mover sys u).failed = true := hw
      rw [hfail3] at hw'
      exact absurd hw' (by decide)
    · rw [bool_other hwu] at hw ⊢
      rw [hmo] at hw
      obtain ⟨hp4, haf, hcf, hoacq⟩ := hInv.failedSt (!u) hw
      rw [Bool.not_not] at hoacq
      refine ⟨?_, ?_, ?_, ?_⟩
      · rw [hmo]; exact hp4
      · rw [hmo]; exact haf
      · rw [hmo]; exact hcf
      · rw [Bool.not_not, hmu]
        exact hoacq
  · intro w hw
    by_cases hwu : w = u
    · rw [hwu, hpcu4] at hw
      exact absurd hw (by decide)
    · rw [bool_other hwu] at hw ⊢
      rw [hmo] at hw
      rcases hInv.snapT (!u) hw with hsn | ⟨_, hsn⟩
      · left
        rw [hmo]
        exact hsn
      · right
        refine ⟨?_, ?_⟩
        · rw [Bool.not_not]
          exact happ'
        · rw [hmo]
          exact hsn
  · intro hnone
    exact absurd happ' (hnone u)
  · intro v2 hv hnv
    by_cases hvu : v2 = u
    · rw [hvu] at hnv ⊢
      rw [hmo] at hnv
      obtain ⟨hsv, hbv⟩ := hInv.oneApp u happ_old hnv
      exact ⟨by rw [hsvc]; exact hsv, by rw [hbc]; exact hbv⟩
    · have hv' : v2 = !u := bool_other hvu
      subst hv'
      rw [Bool.not_not] at hnv
      exact absurd happ' hnv

/-- A finished mover's phase preserves the race invariant. -/
theorem MoveInv_step_done {e : MoveEnv} {s0 : ServiceState} {T : Task}
    {sys : MoveSys}
    (hInv : MoveInv e s0 T sys) (u : Bool) (h0 : (mover sys u).pc ≠ 0)
    (h1 : (mover sys u).pc ≠ 1) (h2 : (mover sys u).pc ≠ 2)
    (h3 : (mover sys u).pc ≠ 3) :
    MoveInv e s0 T (sysStep e sys u) := by
  have hstep := @hstep_done e.db e.pid (envPayload e u) (envNow e u) sys.svc
    sys.locks sys.broadcasts (mover sys u) h0 h1 h2 h3
  obtain ⟨hsvc0, hlocks0, hbc0, hmu0, hmo0⟩ := sysStep_facts e sys u hstep
  have hsvc : (sysStep e sys u).svc = sys.svc := hsvc0
  have hlocks : (sysStep e sys u).locks = sys.locks := hlocks0
  have hbc : (sysStep e sys u).broadcasts = sys.broadcasts := hbc0
  have hmu : mover (sysStep e sys u) u = mover sys u := hmu0
  have hmw : ∀ w, mover (sysStep e sys u) w = mover sys w := by
    intro w
    by_cases hwu : w = u
    · rw [hwu, hmu]
    · rw [bool_other hwu, hmo0]
  refine ⟨?_, ?_, ?_, ?_, ?_, ?_, ?_, ?_, ?_, ?_, ?_, ?_, ?_⟩
  · rw [hsvc]; exact hInv.warm
  · rw [hlocks]; exact hInv.lockVal
  · rw [hlocks]
    constructor
    · intro h
      obtain ⟨w, hw⟩ := hInv.lockCS.mp h
      exact ⟨w, by rw [hmw]; exact hw⟩
    · rintro ⟨w, hw⟩
      rw [hmw] at hw
      exact hInv.lockCS.mpr ⟨w, hw⟩
  · intro w w' hw hw'
    rw [hmw] at hw hw'
    exact hInv.noCS2 w w' hw hw'
  · intro w hw
    rw [hmw] at hw ⊢
    exact hInv.st0 w hw
  · intro w hw
    rw [hmw] at hw ⊢
    exact hInv.st1 w hw
  · intro w hw
    rw [hmw] at hw ⊢
    exact hInv.st23 w hw
  · intro w
    rw [hmw]
    exact hInv.errs w
  · intro w hw
    rw [hmw] at hw ⊢
    exact hInv.confl w hw
  · intro w hw
    simp only [hmw] at hw ⊢
    exact hInv.failedSt w hw
  · intro w hw
    simp only [hmw] at hw ⊢
    exact hInv.snapT w hw
  · intro hnone
    have hold : ∀ w, ¬ moverDidApply (mover sys w) := by
      intro w
      have h := hnone w
      rw [hmw] at h
      exact h
    obtain ⟨hs0, hb0⟩ := hInv.noApp hold
    exact ⟨by rw [hsvc]; exact hs0, by rw [hbc]; exact hb0⟩
  · intro v2 hv hnv
    rw [hmw] at hv hnv
    obtain ⟨hsv, hbv⟩ := hInv.oneApp v2 hv hnv
    exact ⟨by rw [hsvc]; exact hsv, by rw [hbc]; exact hbv⟩

/-- Every phase of either mover preserves the race invariant. -/
theorem MoveInv_step {e : MoveEnv} {s0 : ServiceState} {T : Task}
    {sys : MoveSys} (hdb : dbWf e.db) (hpB : e.pB.id = e.pA.id)
    (hT : getTaskFromCache s0 e.pA.id = some T) (hTid : T.id = e.pA.id)
    (hInv : MoveInv e s0 T sys) (u : Bool) :
    MoveInv e s0 T (sysStep e sys u) := by
  by_cases h0 : (mover sys u).pc = 0
  · exact MoveInv_step_fetch hpB hT hTid hInv u h0
  · by_cases h1 : (mover sys u).pc = 1
    · exact MoveInv_step_acquire hpB hInv u h1
    · by_cases h2 : (mover sys u).pc = 2
      · exact MoveInv_step_apply hdb hpB hT hInv u h2
      · by_cases h3 : (mover sys u).pc = 3
        · exact MoveInv_step_release hpB hInv u h3
        · exact MoveInv_step_done hInv u h0 h1 h2 h3

/-- The race invariant holds before any phase has run. -/
theorem MoveInv_init {e : MoveEnv} {s0 : ServiceState} {T : Task}
    (hInv0 : CacheInv s0) (hT : getTaskFromCache s0 e.pA.id = some T)
    (hTid : T.id = e.pA.id) : MoveInv e s0 T (initSys s0) := by
  have hm : ∀ w, mover (initSys s0) w = initMover := by
    intro w
    cases w <;> rfl
  refine ⟨⟨hInv0, T, hT, hTid⟩, Or.inl rfl, ?_, ?_, ?_, ?_, ?_, ?_, ?_, ?_,
    ?_, ?_, ?_⟩
  · constructor
    · intro h
      exact absurd rfl h
    · rintro ⟨w, hw⟩
      rw [hm] at hw
      rcases hw with hw | hw <;> exact absurd hw (by decide)
  · intro w w' hw _
    rw [hm] at hw
    rcases hw with hw | hw <;> exact absurd hw (by decide)
  · intro w _
    rw [hm]
    exact ⟨rfl, rfl⟩
  · intro w hw
    rw [hm] at hw
    exact absurd hw (by decide)
  · intro w hw
    rw [hm] at hw
    rcases hw with hw | hw <;> exact absurd hw (by decide)
  · intro w
    rw [hm]
    rfl
  · intro w _
    rw [hm]
    rfl
  · intro w hw
    rw [hm] at hw
    exact absurd hw (by decide)
  · intro w hw
    rw [hm] at hw
    exact absurd hw (by decide)
  · intro _
    exact ⟨rfl, rfl⟩
  · intro v2 hv _
    rw [hm] at hv
    obtain ⟨hp, _⟩ := hv
    rcases hp with hp | hp <;> exact absurd hp (by decide)

/-- The race invariant is preserved along every schedule. -/
theorem MoveInv_run {e : MoveEnv} {s0 : ServiceState} {T : Task}
    (hdb : dbWf e.db) (hpB : e.pB.id = e.pA.id)
    (hT : getTaskFromCache s0 e.pA.id = some T) (hTid : T.id = e.pA.id) :
    ∀ (sched : List Bool) {sys : MoveSys}, MoveInv e s0 T sys →
      MoveInv e s0 T (runMoves e sys sched) := by
  intro sched
  induction sched with
  | nil =>
    intro sys h
    exact h
  | cons u rest ih =>
    intro sys h
    exact ih (MoveInv_step hdb hpB hT hTid h u)

/-- C2, amended.  Two concurrent `TASK_MOVE`s on the same existing task
(pre-move state `T`, well-formed warm cache, one server process), with the
handler's await-separated shared-state accesses — fetch, acquire,
apply+broadcast, `finally`-release — interleaved in *any* order: if one
mover lost the lock race then (1) it received exactly one private
`CONFLICT_NOTIFY` and no error code, and its `resolvedState` is its own
fetch-time snapshot — the pre-move state `T` (version `T.version`) or the
winner's post-move record (version `T.version + 1`), depending on whether
it fetched before or after the winner's cache write; (2) it applied
nothing; (3) exactly the winner's move was applied to the cache and the
single `TASK_MOVED` broadcast carries the winner's post-move record,
version `T.version + 1`.  In particular `resolvedState.version` can be
either version, so it is not in general the winner's. -/
theorem C2_amended (e : MoveEnv) (s0 : ServiceState) (T : Task)
    (sched : List Bool) (w : Bool) (sys : MoveSys)
    (hdb : dbWf e.db) (hInv0 : CacheInv s0)
    (hT : getTaskFromCache s0 e.pA.id = some T) (hTid : T.id = e.pA.id)
    (hpB : e.pB.id = e.pA.id)
    (hsys : sys = runMoves e (initSys s0) sched)
    (hfail : (mover sys w).failed = true)
    (hdone : (mover sys (!w)).pc = 4) :
    ((mover sys w).conflicts = [T] ∨
      (mover sys w).conflicts
        = [applyMove T (envPayload e (!w)) (envNow e (!w))]) ∧
    ((mover sys w).conflicts.map Task.version = [T.version] ∨
      (mover sys w).conflicts.map Task.version = [T.version + 1]) ∧
    (mover sys w).errors = [] ∧
    ¬ moverDidApply (mover sys w) ∧
    moverDidApply (mover sys (!w)) ∧
    sys.svc = (moveTask e.db s0 (envPayload e (!w)) (envNow e (!w))).2 ∧
    sys.broadcasts = [applyMove T (envPayload e (!w)) (envNow e (!w))] ∧
    sys.broadcasts.map Task.version = [T.version + 1] := by
  subst hsys
  have hInv : MoveInv e s0 T (runMoves e (initSys s0) sched) :=
    MoveInv_run hdb hpB hT hTid sched (MoveInv_init hInv0 hT hTid)
  obtain ⟨hpc4, hacq, hconf, hoacq⟩ := hInv.failedSt w hfail
  have happly : moverDidApply (mover (runMoves e (initSys s0) sched) (!w)) :=
    ⟨Or.inr hdone, hoacq⟩
  have hnapp : ¬ moverDidApply (mover (runMoves e (initSys s0) sched) w) :=
    notDidApply_of_acq hacq
  have hnapp2 : ¬ moverDidApply
      (mover (runMoves e (initSys s0) sched) (!(!w))) := by
    rw [Bool.not_not]
    exact hnapp
  obtain ⟨hsvc, hbc⟩ := hInv.oneApp (!w) happly hnapp2
  refine ⟨hconf, ?_, hInv.errs w, hnapp, happly, hsvc, hbc, ?_⟩
  · rcases hconf with hc | hc
    · left
      rw [hc]
      rfl
    · right
      rw [hc]
      rfl
  · rw [hbc]
    rfl

/-- The witness scenario's one-task initial cache is well-formed. -/
theorem invC2 : CacheInv (cacheTask initialState taskC2) := by
  refine inv_cacheTask inv_initial ?_ ?_
  · with_unfolding_all decide
  · intro c h
    exact absurd h (List.not_mem_nil _)

/-- The system after the interleaving A-fetch, B-fetch, A-acquire,
B-acquire, A-apply, A-release. -/
def sysC2 : MoveSys :=
  runMoves envC2 (initSys (cacheTask initialState taskC2))
    [false, true, false, true, false, false]

theorem C2_amended_witness :
    ((mover sysC2 true).conflicts = [taskC2] ∨
      (mover sysC2 true).conflicts
        = [applyMove taskC2 (envPayload envC2 (!true)) (envNow envC2 (!true))]) ∧
    ((mover sysC2 true).conflicts.map Task.version = [taskC2.version] ∨
      (mover sysC2 true).conflicts.map Task.version = [taskC2.version + 1]) ∧
    (mover sysC2 true).errors = [] ∧
    ¬ moverDidApply (mover sysC2 true) ∧
    moverDidApply (mover sysC2 (!true)) ∧
    sysC2.svc = (moveTask envC2.db (cacheTask initialState taskC2)
      (envPayload envC2 (!true)) (envNow envC2 (!true))).2 ∧
    sysC2.broadcasts = [applyMove taskC2 (envPayload envC2 (!true))
      (envNow envC2 (!true))] ∧
    sysC2.broadcasts.map Task.version = [taskC2.version + 1] :=
  C2_amended envC2 (cacheTask initialState taskC2) taskC2
    [false, true, false, true, false, false] true sysC2
    (by with_unfolding_all decide)
    invC2
    (by with_unfolding_all decide)
    (by with_unfolding_all decide)
    (by with_unfolding_all decide)
    rfl
    (by with_unfolding_all decide)
    (by with_unfolding_all decide)

end FlowBoard
